import Mathlib

/-!
# The iCE40 I2C hard-IP driver (`c_driver_library/i2c.c`)

A shallow embedding of the driver.  The driver talks to the hardware only
through the five CSR accessors of the generated header `generated/csr.h`;
that header is not part of the sources, so the accessors, the three bit
offsets and `CONFIG_CLOCK_FREQUENCY` are parameters (`Csr`).  The hardware
is an arbitrary state machine over a state type `σ`.

Every driver function is a state transformer over `Drv σ` (hardware state
plus the two global booleans `sbrwi_status`, `sbstbi_status`) that also
returns the list of events it produced.  The two unbounded constructs of
the source, the loop `while (!sb_i2c_get_sb_ack());` and the recursion
`i2c_reset → i2c_begin → sb_i2c_wait_for_trrdy → i2c_reset`, are bounded by
a `fuel` argument; a run that exhausts it yields `Res.diverge` with the
events produced so far.
-/

namespace I2CDriver

/-! ## Events, results, the state monad -/

/-- Events of a run.  The first five are the CSR accesses with the value
written or read.  The last three are instrumentation: `set_register a d` is
logged on entry to `sb_i2c_set_register(a, d)`, `get_register a d` when
`sb_i2c_get_register(a)` returns `d`, `i2c_reset` on entry to `i2c_reset`. -/
inductive Ev where
  | sbctrl_write (v : Nat)
  | sbadri_write (v : Nat)
  | sbdati_write (v : Nat)
  | sbstatus_read (v : Nat)
  | sbdato_read (v : Nat)
  | set_register (address data : Nat)
  | get_register (address data : Nat)
  | i2c_reset
  deriving DecidableEq, Repr

/-- The interface of `generated/csr.h` (absent from the sources): the clock
frequency macro, the bit offsets of the control/status fields and the five
accessor functions acting on a hardware state `σ`. -/
structure Csr (σ : Type) where
  CONFIG_CLOCK_FREQUENCY : Nat
  CSR_SB_I2C_SBCTRL_SBRWI_OFFSET : Nat
  CSR_SB_I2C_SBCTRL_SBSTBI_OFFSET : Nat
  CSR_SB_I2C_SBSTATUS_SBACKO_OFFSET : Nat
  sb_i2c_sbctrl_write : Nat → σ → σ
  sb_i2c_sbadri_write : Nat → σ → σ
  sb_i2c_sbdati_write : Nat → σ → σ
  sb_i2c_sbstatus_read : σ → Nat × σ
  sb_i2c_sbdato_read : σ → Nat × σ

/-- Driver state: the hardware state and the two globals of `i2c.c`. -/
structure Drv (σ : Type) where
  hw : σ
  sbrwi_status : Bool
  sbstbi_status : Bool
  deriving DecidableEq, Repr

/-- Outcome of a run: it returned `a` in state `s` having produced the
events `t`, or the fuel ran out after the events `t`. -/
inductive Res (σ α : Type) where
  | ret (a : α) (s : Drv σ) (t : List Ev)
  | diverge (t : List Ev)
  deriving DecidableEq, Repr

/-- A driver computation. -/
def M (σ α : Type) : Type := Drv σ → Res σ α

/-- Return without any effect. -/
def M.pure {σ α : Type} (a : α) : M σ α := fun s => Res.ret a s []

/-- Sequencing: the events of the second computation follow the first's. -/
def M.bind {σ α β : Type} (m : M σ α) (f : α → M σ β) : M σ β := fun s =>
  match m s with
  | Res.ret a s1 t1 =>
    match f a s1 with
    | Res.ret b s2 t2 => Res.ret b s2 (t1 ++ t2)
    | Res.diverge t2 => Res.diverge (t1 ++ t2)
  | Res.diverge t1 => Res.diverge t1

instance {σ : Type} : Monad (M σ) where
  pure := M.pure
  bind := M.bind

/-- Log one event. -/
def emit {σ : Type} (e : Ev) : M σ Unit := fun s => Res.ret () s [e]

/-- The fuel is exhausted. -/
def outOfFuel {σ α : Type} : M σ α := fun _ => Res.diverge []

/-! ## Constants of `i2c.h` and `sb_i2c_regs.h` -/

def kSB_I2C_CONFIG_TARGET_I2C_FREQUENCY : Nat := 400000
/-- The constant `INT8_MAX`. -/
def kSB_I2C_CONFIG_TRRDY_TIMEOUT : Nat := 127
/-- The constant `INT8_MAX`. -/
def kSB_I2C_CONFIG_SRW_TIMEOUT : Nat := 127

def kSB_I2C_REGS_I2CCR1 : Nat := 0x8
def kSB_I2C_REGS_I2CCMDR : Nat := 0x9
def kSB_I2C_REGS_I2CBRLSB : Nat := 0xa
def kSB_I2C_REGS_I2CBRMSB : Nat := 0xb
def kSB_I2C_REGS_I2CSR : Nat := 0xc
def kSB_I2C_REGS_I2CTXDR : Nat := 0xd
def kSB_I2C_REGS_I2CRXDR : Nat := 0xe

def kI2CCR1_SDA_DEL_SEL_gp : Nat := 2
def kI2CCR1_SDA_DEL_SEL_300NS_gc : Nat := 0b00 <<< kI2CCR1_SDA_DEL_SEL_gp
def kI2CCR1_I2CEN_bm : Nat := 0b1 <<< 7

def kI2CCMDR_CKSDIS_bm : Nat := 0b1 <<< 2
def kI2CCMDR_ACK_bm : Nat := 0b1 <<< 3
def kI2CCMDR_WR_bm : Nat := 0b1 <<< 4
def kI2CCMDR_RD_bm : Nat := 0b1 <<< 5
def kI2CCMDR_STO_bm : Nat := 0b1 <<< 6
def kI2CCMDR_STA_bm : Nat := 0b1 <<< 7

def kI2CBRMSB_bm : Nat := 0b11

def kI2CSR_TRRDY_bm : Nat := 0b1 <<< 2
def kI2CSR_SRW_bm : Nat := 0b1 <<< 4
def kI2CSR_RARC_bm : Nat := 0b1 <<< 5

/-- The constant `prescaler` of `i2c.c`:
`CONFIG_CLOCK_FREQUENCY / kSB_I2C_CONFIG_TARGET_I2C_FREQUENCY / 4 - 1`
in signed integer arithmetic, converted to `uint16_t`. -/
def prescalerOf (clockFrequency : Nat) : Nat :=
  ((((clockFrequency : Int) / (kSB_I2C_CONFIG_TARGET_I2C_FREQUENCY : Int)) / 4 - 1) % 65536).toNat

/-- The `prescaler` of a configuration. -/
def prescaler {σ : Type} (c : Csr σ) : Nat := prescalerOf c.CONFIG_CLOCK_FREQUENCY

/-! ## The Bridge: system-bus handshake -/

/-- The C conversion of a `bool` to an integer. -/
def boolToNat (b : Bool) : Nat := if b then 1 else 0

def sb_i2c_set_sbctrl {σ : Type} (c : Csr σ) : M σ Unit := fun s =>
  let v := 0
    ||| (boolToNat s.sbrwi_status <<< c.CSR_SB_I2C_SBCTRL_SBRWI_OFFSET)
    ||| (boolToNat s.sbstbi_status <<< c.CSR_SB_I2C_SBCTRL_SBSTBI_OFFSET)
  Res.ret () { s with hw := c.sb_i2c_sbctrl_write v s.hw } [Ev.sbctrl_write v]

def sb_i2c_sbctrl_sbrwi_write {σ : Type} (c : Csr σ) (value : Nat) : M σ Unit := do
  (fun s => Res.ret () { s with sbrwi_status := value != 0 } [])
  sb_i2c_set_sbctrl c

def sb_i2c_sbctrl_sbstbi_write {σ : Type} (c : Csr σ) (value : Nat) : M σ Unit := do
  (fun s => Res.ret () { s with sbstbi_status := value != 0 } [])
  sb_i2c_set_sbctrl c

def sb_i2c_set_read_cmd {σ : Type} (c : Csr σ) : M σ Unit :=
  sb_i2c_sbctrl_sbrwi_write c 0

def sb_i2c_set_write_cmd {σ : Type} (c : Csr σ) : M σ Unit :=
  sb_i2c_sbctrl_sbrwi_write c 1

def sb_i2c_set_not_ready_cmd {σ : Type} (c : Csr σ) : M σ Unit :=
  sb_i2c_sbctrl_sbstbi_write c 0

def sb_i2c_set_ready_cmd {σ : Type} (c : Csr σ) : M σ Unit :=
  sb_i2c_sbctrl_sbstbi_write c 1

def sb_i2c_get_sb_ack {σ : Type} (c : Csr σ) : M σ Bool := fun s =>
  let r := c.sb_i2c_sbstatus_read s.hw
  Res.ret ((r.1 &&& (1 <<< c.CSR_SB_I2C_SBSTATUS_SBACKO_OFFSET)) != 0)
    { s with hw := r.2 } [Ev.sbstatus_read r.1]

def sb_i2c_set_reg_addr {σ : Type} (c : Csr σ) (address : Nat) : M σ Unit := fun s =>
  Res.ret () { s with hw := c.sb_i2c_sbadri_write address s.hw } [Ev.sbadri_write address]

def sb_i2c_set_data {σ : Type} (c : Csr σ) (data : Nat) : M σ Unit := fun s =>
  Res.ret () { s with hw := c.sb_i2c_sbdati_write data s.hw } [Ev.sbdati_write data]

/-- Returns `uint8_t`: the value read is truncated to eight bits. -/
def sb_i2c_get_data {σ : Type} (c : Csr σ) : M σ Nat := fun s =>
  let r := c.sb_i2c_sbdato_read s.hw
  Res.ret (r.1 % 256) { s with hw := r.2 } [Ev.sbdato_read r.1]

/-- The loop `while (!sb_i2c_get_sb_ack());`, at most `fuel` polls. -/
def sb_ack_wait {σ : Type} (c : Csr σ) : Nat → M σ Unit
  | 0 => outOfFuel
  | fuel + 1 => do
    let ack ← sb_i2c_get_sb_ack c
    if ack then pure () else sb_ack_wait c fuel

/-- The parameter `data` is a `uint8_t`: the argument is truncated. -/
def sb_i2c_set_register {σ : Type} (c : Csr σ) (fuel : Nat) (address data : Nat) : M σ Unit := do
  emit (Ev.set_register address (data % 256))
  sb_i2c_set_reg_addr c address
  sb_i2c_set_data c (data % 256)
  sb_i2c_set_write_cmd c
  sb_i2c_set_ready_cmd c
  sb_ack_wait c fuel
  sb_i2c_set_not_ready_cmd c
  sb_i2c_set_read_cmd c

def sb_i2c_get_register {σ : Type} (c : Csr σ) (fuel : Nat) (address : Nat) : M σ Nat := do
  sb_i2c_set_reg_addr c address
  sb_i2c_set_read_cmd c
  sb_i2c_set_ready_cmd c
  sb_ack_wait c fuel
  let data ← sb_i2c_get_data c
  sb_i2c_set_not_ready_cmd c
  emit (Ev.get_register address data)
  pure data

/-! ## The transaction engine -/

def sb_i2c_send_command {σ : Type} (c : Csr σ) (fuel : Nat) (command : Nat) : M σ Unit := do
  sb_i2c_set_register c fuel kSB_I2C_REGS_I2CCMDR command
  sb_i2c_set_register c fuel kSB_I2C_REGS_I2CCMDR 0x00

def i2c_end {σ : Type} (c : Csr σ) (fuel : Nat) : M σ Unit :=
  sb_i2c_set_register c fuel kSB_I2C_REGS_I2CCMDR
    (0 ||| kI2CCMDR_CKSDIS_bm ||| kI2CCMDR_STO_bm)

def i2c_init {σ : Type} (c : Csr σ) (fuel : Nat) : M σ Unit := do
  i2c_end c fuel
  sb_i2c_set_register c fuel kSB_I2C_REGS_I2CCR1
    (0 ||| kI2CCR1_SDA_DEL_SEL_300NS_gc ||| kI2CCR1_I2CEN_bm)
  sb_i2c_set_register c fuel kSB_I2C_REGS_I2CBRLSB (prescaler c &&& 0xFF)
  sb_i2c_set_register c fuel kSB_I2C_REGS_I2CBRMSB (prescaler c >>> 8)

/-- The body of a wait helper: the `for` loop with `n` iterations left,
polling the status flag `mask`; when the loop is exhausted control falls
through to the call `i2c_reset()`, here `reset`. -/
def sb_i2c_wait_loop {σ : Type} (c : Csr σ) (fuel : Nat) (mask : Nat) (reset : M σ Unit) :
    Nat → M σ Unit
  | 0 => reset
  | n + 1 => do
    let sr ← sb_i2c_get_register c fuel kSB_I2C_REGS_I2CSR
    if (sr &&& mask) != 0 then pure () else sb_i2c_wait_loop c fuel mask reset n

/-- The function `sb_i2c_wait_for_trrdy`, with its callee `i2c_reset` as `reset`. -/
def sb_i2c_wait_for_trrdy_with {σ : Type} (c : Csr σ) (fuel : Nat) (reset : M σ Unit) : M σ Unit :=
  sb_i2c_wait_loop c fuel kI2CSR_TRRDY_bm reset kSB_I2C_CONFIG_TRRDY_TIMEOUT

/-- The function `sb_i2c_wait_for_srw`, with its callee `i2c_reset` as `reset`. -/
def sb_i2c_wait_for_srw_with {σ : Type} (c : Csr σ) (fuel : Nat) (reset : M σ Unit) : M σ Unit :=
  sb_i2c_wait_loop c fuel kI2CSR_SRW_bm reset kSB_I2C_CONFIG_SRW_TIMEOUT

/-- The function `i2c_begin`, with `i2c_reset` as `reset`.  The parameter
`address` is a `uint8_t`; the byte written is truncated by `sb_i2c_set_register`. -/
def i2c_begin_with {σ : Type} (c : Csr σ) (fuel : Nat) (reset : M σ Unit)
    (address : Nat) (is_read_cmd : Bool) : M σ Unit := do
  sb_i2c_set_register c fuel kSB_I2C_REGS_I2CTXDR
    ((address % 256) <<< 1 ||| (if is_read_cmd then 0b1 else 0b0))
  sb_i2c_send_command c fuel (0 ||| kI2CCMDR_CKSDIS_bm ||| kI2CCMDR_WR_bm ||| kI2CCMDR_STA_bm)
  if is_read_cmd then do
    sb_i2c_wait_for_srw_with c fuel reset
    sb_i2c_set_register c fuel kSB_I2C_REGS_I2CCMDR (0 ||| kI2CCMDR_CKSDIS_bm ||| kI2CCMDR_RD_bm)
  else
    sb_i2c_wait_for_trrdy_with c fuel reset

/-- The function `i2c_reset`; `fuel` bounds the depth of the recursion
through `i2c_begin` and the wait helper. -/
def i2c_reset {σ : Type} (c : Csr σ) : Nat → M σ Unit
  | 0 => do
    emit Ev.i2c_reset
    outOfFuel
  | fuel + 1 => do
    emit Ev.i2c_reset
    i2c_end c fuel
    i2c_begin_with c fuel (i2c_reset c fuel) 0x00 false
    i2c_end c fuel
    i2c_init c fuel
    i2c_end c fuel
    i2c_begin_with c fuel (i2c_reset c fuel) 0x00 false
    i2c_end c fuel

def sb_i2c_wait_for_trrdy {σ : Type} (c : Csr σ) (fuel : Nat) : M σ Unit :=
  sb_i2c_wait_for_trrdy_with c fuel (i2c_reset c fuel)

def sb_i2c_wait_for_srw {σ : Type} (c : Csr σ) (fuel : Nat) : M σ Unit :=
  sb_i2c_wait_for_srw_with c fuel (i2c_reset c fuel)

def i2c_begin {σ : Type} (c : Csr σ) (fuel : Nat) (address : Nat) (is_read_cmd : Bool) : M σ Unit :=
  i2c_begin_with c fuel (i2c_reset c fuel) address is_read_cmd

def i2c_write {σ : Type} (c : Csr σ) (fuel : Nat) (data : Nat) : M σ Unit := do
  sb_i2c_set_register c fuel kSB_I2C_REGS_I2CTXDR data
  sb_i2c_send_command c fuel (0 ||| kI2CCMDR_CKSDIS_bm ||| kI2CCMDR_WR_bm)
  sb_i2c_wait_for_trrdy c fuel

def i2c_read {σ : Type} (c : Csr σ) (fuel : Nat) (is_last_read : Bool) : M σ Nat :=
  if !is_last_read then do
    sb_i2c_wait_for_trrdy c fuel
    sb_i2c_get_register c fuel kSB_I2C_REGS_I2CRXDR
  else do
    sb_i2c_set_register c fuel kSB_I2C_REGS_I2CCMDR
      (0 ||| kI2CCMDR_CKSDIS_bm ||| kI2CCMDR_ACK_bm ||| kI2CCMDR_RD_bm ||| kI2CCMDR_STO_bm)
    sb_i2c_wait_for_trrdy c fuel
    sb_i2c_get_register c fuel kSB_I2C_REGS_I2CRXDR

def i2c_scan {σ : Type} (c : Csr σ) (fuel : Nat) (address : Nat) : M σ Bool := do
  i2c_begin c fuel address false
  i2c_write c fuel 0x00
  let sr ← sb_i2c_get_register c fuel kSB_I2C_REGS_I2CSR
  let ack := !((sr &&& kI2CSR_RARC_bm) != 0)
  i2c_end c fuel
  pure ack

/-! ## Observations on runs -/

/-- The events of a run, whether it returned or not. -/
def Res.trace {σ α : Type} : Res σ α → List Ev
  | Res.ret _ _ t => t
  | Res.diverge t => t

/-- Whether the run returned. -/
def Res.returns {σ α : Type} : Res σ α → Bool
  | Res.ret _ _ _ => true
  | Res.diverge _ => false

/-- The value returned by the run, if it returned. -/
def Res.val? {σ α : Type} : Res σ α → Option α
  | Res.ret a _ _ => some a
  | Res.diverge _ => none

/-- Every acknowledge wait of the Bridge completes within `fuel` polls,
from every state: the hardware acknowledges every Bridge access. -/
def BridgeAcks {σ : Type} (c : Csr σ) (fuel : Nat) : Prop :=
  ∀ s : Drv σ, (sb_ack_wait c fuel s).returns = true

/-- Register-level (instrumentation) events. -/
def Ev.isGhost : Ev → Bool
  | Ev.set_register _ _ => true
  | Ev.get_register _ _ => true
  | Ev.i2c_reset => true
  | _ => false

/-- The register-level events of a trace. -/
def ghost (t : List Ev) : List Ev := t.filter Ev.isGhost

/-- The register write of an event, if it is one. -/
def Ev.write? : Ev → Option (Nat × Nat)
  | Ev.set_register a d => some (a, d)
  | _ => none

/-- The register writes of a trace, as (address, data) pairs, in order. -/
def regWrites (t : List Ev) : List (Nat × Nat) := t.filterMap Ev.write?

/-- Whether the event is a call of `i2c_reset`. -/
def Ev.isReset : Ev → Bool
  | Ev.i2c_reset => true
  | _ => false

/-- The number of calls of `i2c_reset` in a trace. -/
def resetCalls (t : List Ev) : Nat := t.countP Ev.isReset

/-- Whether the event is a completed read of the status register. -/
def Ev.isStatusRead : Ev → Bool
  | Ev.get_register a _ => a == kSB_I2C_REGS_I2CSR
  | _ => false

/-- The number of completed reads of the status register in a trace. -/
def statusReads (t : List Ev) : Nat := t.countP Ev.isStatusRead

/-- The control word for the given direction and strobe signals. -/
def sbctrlWord {σ : Type} (c : Csr σ) (rwi stbi : Bool) : Nat :=
  0 ||| (boolToNat rwi <<< c.CSR_SB_I2C_SBCTRL_SBRWI_OFFSET)
    ||| (boolToNat stbi <<< c.CSR_SB_I2C_SBCTRL_SBSTBI_OFFSET)

/-- The register file after the writes `ws`, from the last-written values `regs`. -/
def applyWrites (regs : Nat → Nat) (ws : List (Nat × Nat)) : Nat → Nat :=
  ws.foldl (fun r w => Function.update r w.1 w.2) regs

/-- The driver-visible state: the last-written register values and the
Bridge's direction and strobe signals. -/
structure View where
  regs : Nat → Nat
  sbrwi_status : Bool
  sbstbi_status : Bool

/-- The driver-visible state after a run that ended in `s` with trace `t`,
when the registers held `regs` before it. -/
def viewAfter {σ : Type} (regs : Nat → Nat) (s : Drv σ) (t : List Ev) : View :=
  ⟨applyWrites regs (regWrites t), s.sbrwi_status, s.sbstbi_status⟩

/-- Every write of a non-zero value to the command register is followed,
as the next register write, by a write of `0x00` to the command register. -/
def pulsed : List (Nat × Nat) → Bool
  | [] => true
  | w :: rest =>
    (!(w.1 == kSB_I2C_REGS_I2CCMDR && w.2 != 0)
      || rest.head? == some (kSB_I2C_REGS_I2CCMDR, 0)) && pulsed rest

/-- The same, except for the command values in `exempt`. -/
def pulsedExcept (exempt : List Nat) : List (Nat × Nat) → Bool
  | [] => true
  | w :: rest =>
    (!(w.1 == kSB_I2C_REGS_I2CCMDR && w.2 != 0) || exempt.contains w.2
      || rest.head? == some (kSB_I2C_REGS_I2CCMDR, 0)) && pulsedExcept exempt rest

/-- The command values the driver writes without clearing them: stop
(`STO|CKSDIS`), receive (`RD|CKSDIS`) and last read (`ACK|RD|STO|CKSDIS`). -/
def unclearedCommands : List Nat :=
  [0 ||| kI2CCMDR_CKSDIS_bm ||| kI2CCMDR_STO_bm,
   0 ||| kI2CCMDR_CKSDIS_bm ||| kI2CCMDR_RD_bm,
   0 ||| kI2CCMDR_CKSDIS_bm ||| kI2CCMDR_ACK_bm ||| kI2CCMDR_RD_bm ||| kI2CCMDR_STO_bm]

/-- The register writes a wait helper can contribute when it returns:
none, or those of a returning call of `i2c_reset`. -/
def WaitWrites {σ : Type} (c : Csr σ) (fuel : Nat) (w : List (Nat × Nat)) : Prop :=
  w = [] ∨ ∃ s1 s2 t1, i2c_reset c fuel s1 = Res.ret () s2 t1 ∧ w = regWrites t1

/-- The state of the registers that `i2c_reset` establishes: the command
register was written last, with the stop command, and control and prescale
registers hold their configured values whatever they held before. -/
def ResetFinal {σ : Type} (c : Csr σ) (ws : List (Nat × Nat)) : Prop :=
  ws.getLast? = some (kSB_I2C_REGS_I2CCMDR, 0x44) ∧
    ∀ regs : Nat → Nat,
      applyWrites regs ws kSB_I2C_REGS_I2CCR1 = 0x80 ∧
      applyWrites regs ws kSB_I2C_REGS_I2CBRLSB = prescaler c &&& 0xFF ∧
      applyWrites regs ws kSB_I2C_REGS_I2CBRMSB = prescaler c >>> 8

/-! ## A simulated core -/

/-- A simulated Bridge and core: every access is acknowledged at once
(acknowledge flag at bit 0 of the status signal; direction at bit 0 and
strobe at bit 1 of the control word), and the `k`-th read of the data-out
signal returns `f k`.  The hardware state is the number of reads so far. -/
def simCsr (clockFrequency : Nat) (f : Nat → Nat) : Csr Nat where
  CONFIG_CLOCK_FREQUENCY := clockFrequency
  CSR_SB_I2C_SBCTRL_SBRWI_OFFSET := 0
  CSR_SB_I2C_SBCTRL_SBSTBI_OFFSET := 1
  CSR_SB_I2C_SBSTATUS_SBACKO_OFFSET := 0
  sb_i2c_sbctrl_write := fun _ hw => hw
  sb_i2c_sbadri_write := fun _ hw => hw
  sb_i2c_sbdati_write := fun _ hw => hw
  sb_i2c_sbstatus_read := fun hw => (1, hw)
  sb_i2c_sbdato_read := fun hw => (f hw, hw + 1)

/-- The initial state: no read yet, both globals `false` as `i2c.c` initialises them. -/
def idle : Drv Nat := ⟨0, false, false⟩

/-! ## Control words and polls -/

/-- The control word of an event, if it is a write of the control signal. -/
def Ev.ctrl? : Ev → Option Nat
  | Ev.sbctrl_write v => some v
  | _ => none

/-- The control words sent to the hardware in a trace, in order. -/
def ctrlWrites (t : List Ev) : List Nat := t.filterMap Ev.ctrl?

/-- Whether the event is a poll of the acknowledge signal. -/
def Ev.isAckPoll : Ev → Bool
  | Ev.sbstatus_read _ => true
  | _ => false

/-- The hardware shows the status flag `mask` for the first time on the
`k`-th read of the status register from state `s`: the first `k - 1` reads
return with the flag clear and the `k`-th returns with it set. -/
def flagFirstOnPoll {σ : Type} (c : Csr σ) (fuel mask : Nat) : Nat → Drv σ → Bool
  | 0, _ => false
  | k + 1, s =>
    match sb_i2c_get_register c fuel kSB_I2C_REGS_I2CSR s with
    | Res.ret v s1 _ =>
      if (v &&& mask) != 0 then k == 0 else flagFirstOnPoll c fuel mask k s1
    | Res.diverge _ => false

/-! ## Basic facts about sequencing -/

@[simp] theorem bind_def {σ α β : Type} (m : M σ α) (f : α → M σ β) :
    (m >>= f) = M.bind m f := rfl

@[simp] theorem pure_def {σ α : Type} (a : α) : (pure a : M σ α) = M.pure a := rfl

@[simp] theorem Res.trace_ret {σ α : Type} (a : α) (s : Drv σ) (t : List Ev) :
    (Res.ret a s t).trace = t := rfl

@[simp] theorem Res.trace_diverge {σ α : Type} (t : List Ev) :
    (Res.diverge t : Res σ α).trace = t := rfl

@[simp] theorem Res.returns_ret {σ α : Type} (a : α) (s : Drv σ) (t : List Ev) :
    (Res.ret a s t).returns = true := rfl

@[simp] theorem Res.returns_diverge {σ α : Type} (t : List Ev) :
    (Res.diverge t : Res σ α).returns = false := rfl

@[simp] theorem Res.val?_ret {σ α : Type} (a : α) (s : Drv σ) (t : List Ev) :
    (Res.ret a s t).val? = some a := rfl

@[simp] theorem Res.val?_diverge {σ α : Type} (t : List Ev) :
    (Res.diverge t : Res σ α).val? = none := rfl

theorem Res.returns_iff {σ α : Type} (r : Res σ α) :
    r.returns = true ↔ ∃ a s t, r = Res.ret a s t := by
  cases r <;> simp

theorem M.bind_ret {σ α β : Type} {m : M σ α} {f : α → M σ β} {s s2 : Drv σ} {b : β}
    {t : List Ev} :
    M.bind m f s = Res.ret b s2 t ↔
      ∃ a s1 t1 t2, m s = Res.ret a s1 t1 ∧ f a s1 = Res.ret b s2 t2 ∧ t = t1 ++ t2 := by
  unfold M.bind
  cases hm : m s with
  | ret a s1 t1 =>
    cases hf : f a s1 with
    | ret b2 s3 t2 =>
      simp only [hf, Res.ret.injEq]
      constructor
      · rintro ⟨rfl, rfl, rfl⟩
        exact ⟨a, s1, t1, t2, ⟨rfl, rfl, rfl⟩, by simp [hf], rfl⟩
      · rintro ⟨a2, s4, t3, t4, ⟨rfl, rfl, rfl⟩, h2, rfl⟩
        rw [hf] at h2
        simp only [Res.ret.injEq] at h2
        obtain ⟨rfl, rfl, rfl⟩ := h2
        exact ⟨rfl, rfl, rfl⟩
    | diverge t2 =>
      simp only [hf]
      constructor
      · intro h
        exact absurd h (by simp)
      · rintro ⟨a2, s4, t3, t4, h1, h2, -⟩
        simp only [Res.ret.injEq] at h1
        obtain ⟨rfl, rfl, rfl⟩ := h1
        rw [hf] at h2
        exact absurd h2 (by simp)
  | diverge t1 => simp

/-- A sequence whose two parts return, returns. -/
theorem M.bind_of_ret {σ α β : Type} {m : M σ α} {f : α → M σ β} {s s1 s2 : Drv σ} {a : α}
    {b : β} {t1 t2 : List Ev} (h1 : m s = Res.ret a s1 t1) (h2 : f a s1 = Res.ret b s2 t2) :
    M.bind m f s = Res.ret b s2 (t1 ++ t2) :=
  M.bind_ret.mpr ⟨a, s1, t1, t2, h1, h2, rfl⟩

/-- The trace of a sequence: the first part's events, then the second's if the first returned. -/
theorem M.bind_trace {σ α β : Type} (m : M σ α) (f : α → M σ β) (s : Drv σ) :
    (M.bind m f s).trace = (m s).trace ++
      (match m s with
       | Res.ret a s1 _ => (f a s1).trace
       | Res.diverge _ => []) := by
  unfold M.bind
  cases hm : m s with
  | ret a s1 t1 =>
    cases hf : f a s1 <;> simp [hf]
  | diverge t1 => simp

theorem M.bind_returns {σ α β : Type} (m : M σ α) (f : α → M σ β) (s : Drv σ) :
    (M.bind m f s).returns =
      (match m s with
       | Res.ret a s1 _ => (f a s1).returns
       | Res.diverge _ => false) := by
  unfold M.bind
  cases hm : m s with
  | ret a s1 t1 =>
    cases hf : f a s1 <;> simp [hf]
  | diverge t1 => simp

theorem M.bind_val? {σ α β : Type} (m : M σ α) (f : α → M σ β) (s : Drv σ) :
    (M.bind m f s).val? =
      (match m s with
       | Res.ret a s1 _ => (f a s1).val?
       | Res.diverge _ => none) := by
  unfold M.bind
  cases hm : m s with
  | ret a s1 t1 =>
    cases hf : f a s1 <;> simp [hf]
  | diverge t1 => simp

@[simp] theorem ghost_nil : ghost [] = [] := rfl

@[simp] theorem ghost_cons (e : Ev) (t : List Ev) :
    ghost (e :: t) = if e.isGhost then e :: ghost t else ghost t := by
  simp only [ghost, List.filter_cons]

@[simp] theorem ghost_append (t1 t2 : List Ev) : ghost (t1 ++ t2) = ghost t1 ++ ghost t2 := by
  simp [ghost]

@[simp] theorem regWrites_nil : regWrites [] = [] := rfl

@[simp] theorem regWrites_cons (e : Ev) (t : List Ev) :
    regWrites (e :: t) = (match e.write? with
      | some w => w :: regWrites t
      | none => regWrites t) := by
  cases h : e.write? <;> simp [regWrites, List.filterMap_cons, h]

@[simp] theorem regWrites_append (t1 t2 : List Ev) :
    regWrites (t1 ++ t2) = regWrites t1 ++ regWrites t2 := by
  simp [regWrites]

@[simp] theorem resetCalls_nil : resetCalls [] = 0 := rfl

@[simp] theorem resetCalls_cons (e : Ev) (t : List Ev) :
    resetCalls (e :: t) = resetCalls t + (if e.isReset then 1 else 0) := by
  simp only [resetCalls, List.countP_cons]

@[simp] theorem resetCalls_append (t1 t2 : List Ev) :
    resetCalls (t1 ++ t2) = resetCalls t1 + resetCalls t2 := by
  simp [resetCalls]

@[simp] theorem statusReads_nil : statusReads [] = 0 := rfl

@[simp] theorem statusReads_cons (e : Ev) (t : List Ev) :
    statusReads (e :: t) = statusReads t + (if e.isStatusRead then 1 else 0) := by
  simp only [statusReads, List.countP_cons]

@[simp] theorem statusReads_append (t1 t2 : List Ev) :
    statusReads (t1 ++ t2) = statusReads t1 + statusReads t2 := by
  simp [statusReads]

/-- The register writes, resets and status reads of a trace are those of its
register-level events. -/
theorem regWrites_ghost (t : List Ev) : regWrites (ghost t) = regWrites t := by
  induction t with
  | nil => rfl
  | cons e t ih => cases e <;> simp [Ev.isGhost, Ev.write?, ih]

theorem resetCalls_ghost (t : List Ev) : resetCalls (ghost t) = resetCalls t := by
  induction t with
  | nil => rfl
  | cons e t ih => cases e <;> simp [Ev.isGhost, Ev.isReset, ih]

theorem statusReads_ghost (t : List Ev) : statusReads (ghost t) = statusReads t := by
  induction t with
  | nil => rfl
  | cons e t ih => cases e <;> simp [Ev.isGhost, Ev.isStatusRead, ih]

/-! ## The Bridge -/

/-- The acknowledge loop produces no register-level event. -/
theorem sb_ack_wait_ghost {σ : Type} (c : Csr σ) (fuel : Nat) (s : Drv σ) :
    ghost (sb_ack_wait c fuel s).trace = [] := by
  induction fuel generalizing s with
  | zero => simp [sb_ack_wait, outOfFuel]
  | succ n ih =>
    simp only [sb_ack_wait, bind_def, M.bind_trace, ghost_append]
    simp only [sb_i2c_get_sb_ack, Res.trace_ret]
    split_ifs <;> simp [M.pure, ih, Ev.isGhost]

/-- The acknowledge loop leaves the two handshake globals alone. -/
theorem sb_ack_wait_ret {σ : Type} (c : Csr σ) (fuel : Nat) (s s1 : Drv σ) (t : List Ev)
    (h : sb_ack_wait c fuel s = Res.ret () s1 t) :
    s1.sbrwi_status = s.sbrwi_status ∧ s1.sbstbi_status = s.sbstbi_status := by
  induction fuel generalizing s t with
  | zero => simp [sb_ack_wait, outOfFuel] at h
  | succ n ih =>
    simp only [sb_ack_wait, bind_def, M.bind_ret] at h
    obtain ⟨a, s2, t1, t2, h1, h2, rfl⟩ := h
    simp only [sb_i2c_get_sb_ack, Res.ret.injEq] at h1
    obtain ⟨rfl, rfl, rfl⟩ := h1
    split_ifs at h2
    · simp only [pure_def, M.pure, Res.ret.injEq] at h2
      obtain ⟨-, rfl, -⟩ := h2
      simp
    · have := ih _ _ h2
      simpa using this

theorem sb_i2c_sbctrl_sbrwi_write_eq {σ : Type} (c : Csr σ) (value : Nat) (s : Drv σ) :
    sb_i2c_sbctrl_sbrwi_write c value s =
      Res.ret ()
        ⟨c.sb_i2c_sbctrl_write (sbctrlWord c (value != 0) s.sbstbi_status) s.hw,
          value != 0, s.sbstbi_status⟩
        [Ev.sbctrl_write (sbctrlWord c (value != 0) s.sbstbi_status)] := by
  simp [sb_i2c_sbctrl_sbrwi_write, M.bind, sb_i2c_set_sbctrl, sbctrlWord]

theorem sb_i2c_sbctrl_sbstbi_write_eq {σ : Type} (c : Csr σ) (value : Nat) (s : Drv σ) :
    sb_i2c_sbctrl_sbstbi_write c value s =
      Res.ret ()
        ⟨c.sb_i2c_sbctrl_write (sbctrlWord c s.sbrwi_status (value != 0)) s.hw,
          s.sbrwi_status, value != 0⟩
        [Ev.sbctrl_write (sbctrlWord c s.sbrwi_status (value != 0))] := by
  simp [sb_i2c_sbctrl_sbstbi_write, M.bind, sb_i2c_set_sbctrl, sbctrlWord]

/-- What a register write does, in every outcome: its register-level
trace is the one write; when it returns, strobe and direction are reset. -/
theorem sb_i2c_set_register_ghost {σ : Type} (c : Csr σ) (fuel address data : Nat) (s : Drv σ) :
    ghost (sb_i2c_set_register c fuel address data s).trace
        = [Ev.set_register address (data % 256)] := by
  simp only [sb_i2c_set_register, bind_def, M.bind_trace, ghost_append, emit,
    sb_i2c_set_reg_addr, sb_i2c_set_data, sb_i2c_set_write_cmd, sb_i2c_set_ready_cmd,
    sb_i2c_set_not_ready_cmd, sb_i2c_set_read_cmd, sb_i2c_sbctrl_sbrwi_write_eq,
    sb_i2c_sbctrl_sbstbi_write_eq, Res.trace_ret, sb_ack_wait_ghost]
  split <;> simp [Ev.isGhost]

theorem sb_i2c_set_register_ret {σ : Type} {c : Csr σ} {fuel address data : Nat} {s s1 : Drv σ}
    {t : List Ev} (h : sb_i2c_set_register c fuel address data s = Res.ret () s1 t) :
    s1.sbrwi_status = false ∧ s1.sbstbi_status = false := by
  simp only [sb_i2c_set_register, bind_def] at h
  obtain ⟨_, _, _, _, -, h, -⟩ := M.bind_ret.mp h
  obtain ⟨_, _, _, _, -, h, -⟩ := M.bind_ret.mp h
  obtain ⟨_, _, _, _, -, h, -⟩ := M.bind_ret.mp h
  obtain ⟨_, _, _, _, -, h, -⟩ := M.bind_ret.mp h
  obtain ⟨_, _, _, _, -, h, -⟩ := M.bind_ret.mp h
  obtain ⟨_, _, _, _, -, h, -⟩ := M.bind_ret.mp h
  obtain ⟨_, s7, _, _, h7, h, -⟩ := M.bind_ret.mp h
  simp only [sb_i2c_set_not_ready_cmd, sb_i2c_sbctrl_sbstbi_write_eq, Res.ret.injEq] at h7
  simp only [sb_i2c_set_read_cmd, sb_i2c_sbctrl_sbrwi_write_eq, Res.ret.injEq] at h
  obtain ⟨-, rfl, -⟩ := h7
  obtain ⟨-, rfl, -⟩ := h
  simp

/-- A register write returns exactly when its acknowledge wait does. -/
theorem sb_i2c_set_register_returns {σ : Type} {c : Csr σ} {fuel : Nat} (hack : BridgeAcks c fuel)
    (address data : Nat) (s : Drv σ) :
    (sb_i2c_set_register c fuel address data s).returns = true := by
  simp only [sb_i2c_set_register, bind_def, M.bind_returns, emit,
    sb_i2c_set_reg_addr, sb_i2c_set_data, sb_i2c_set_write_cmd, sb_i2c_set_ready_cmd,
    sb_i2c_set_not_ready_cmd, sb_i2c_set_read_cmd, sb_i2c_sbctrl_sbrwi_write_eq,
    sb_i2c_sbctrl_sbstbi_write_eq, Res.returns_ret]
  split
  · rfl
  · rename_i h
    exact absurd ((hack _).symm.trans (congrArg Res.returns h)) (by simp)

/-- A register read, in every outcome, performs no register write and no
reset, and logs its own completion when it returns. -/
theorem sb_i2c_get_register_ghost {σ : Type} (c : Csr σ) (fuel address : Nat) (s : Drv σ) :
    ghost (sb_i2c_get_register c fuel address s).trace =
      (match (sb_i2c_get_register c fuel address s).val? with
       | some v => [Ev.get_register address v]
       | none => []) := by
  simp only [sb_i2c_get_register, bind_def, M.bind_trace, M.bind_val?, ghost_append, emit,
    sb_i2c_set_reg_addr, sb_i2c_set_ready_cmd,
    sb_i2c_set_not_ready_cmd, sb_i2c_set_read_cmd, sb_i2c_sbctrl_sbrwi_write_eq,
    sb_i2c_sbctrl_sbstbi_write_eq, sb_i2c_get_data, pure_def, M.pure, Res.trace_ret,
    Res.val?_ret, sb_ack_wait_ghost]
  split <;> simp [Ev.isGhost]

theorem sb_i2c_get_register_returns {σ : Type} {c : Csr σ} {fuel : Nat} (hack : BridgeAcks c fuel)
    (address : Nat) (s : Drv σ) :
    (sb_i2c_get_register c fuel address s).returns = true := by
  simp only [sb_i2c_get_register, bind_def, M.bind_returns, emit,
    sb_i2c_set_reg_addr, sb_i2c_set_ready_cmd,
    sb_i2c_set_not_ready_cmd, sb_i2c_set_read_cmd, sb_i2c_sbctrl_sbrwi_write_eq,
    sb_i2c_sbctrl_sbstbi_write_eq, sb_i2c_get_data, pure_def, M.pure, Res.returns_ret]
  split
  · rfl
  · rename_i h
    exact absurd ((hack _).symm.trans (congrArg Res.returns h)) (by simp)

/-- A register read that returns: the value is a byte delivered by the
data-out signal, strobe is de-asserted and direction is read. -/
theorem sb_i2c_get_register_ret {σ : Type} {c : Csr σ} {fuel address : Nat} {s s1 : Drv σ}
    {v : Nat} {t : List Ev} (h : sb_i2c_get_register c fuel address s = Res.ret v s1 t) :
    ghost t = [Ev.get_register address v] ∧ s1.sbrwi_status = false ∧ s1.sbstbi_status = false ∧
      ∃ hw, v = (c.sb_i2c_sbdato_read hw).1 % 256 := by
  have hg := sb_i2c_get_register_ghost c fuel address s
  rw [h] at hg
  simp only [Res.trace_ret, Res.val?_ret] at hg
  refine ⟨hg, ?_⟩
  simp only [sb_i2c_get_register, bind_def] at h
  obtain ⟨_, _, _, _, -, h, -⟩ := M.bind_ret.mp h
  obtain ⟨_, s2, _, _, h2, h, -⟩ := M.bind_ret.mp h
  obtain ⟨_, s3, _, _, h3, h, -⟩ := M.bind_ret.mp h
  obtain ⟨_, s4, _, _, h4, h, -⟩ := M.bind_ret.mp h
  obtain ⟨d, s5, _, _, h5, h, -⟩ := M.bind_ret.mp h
  obtain ⟨_, s6, _, _, h6, h, -⟩ := M.bind_ret.mp h
  obtain ⟨_, s7, _, _, h7, h, -⟩ := M.bind_ret.mp h
  have h4 := sb_ack_wait_ret c fuel _ _ _ h4
  simp only [sb_i2c_set_read_cmd, sb_i2c_sbctrl_sbrwi_write_eq, Res.ret.injEq] at h2
  simp only [sb_i2c_set_ready_cmd, sb_i2c_sbctrl_sbstbi_write_eq, Res.ret.injEq] at h3
  simp only [sb_i2c_get_data, Res.ret.injEq] at h5
  simp only [sb_i2c_set_not_ready_cmd, sb_i2c_sbctrl_sbstbi_write_eq, Res.ret.injEq] at h6
  simp only [emit, Res.ret.injEq] at h7
  simp only [pure_def, M.pure, Res.ret.injEq] at h
  obtain ⟨-, rfl, -⟩ := h2
  obtain ⟨-, rfl, -⟩ := h3
  obtain ⟨rfl, rfl, -⟩ := h5
  obtain ⟨-, rfl, -⟩ := h6
  obtain ⟨-, rfl, -⟩ := h7
  obtain ⟨rfl, rfl, -⟩ := h
  simp only [bne_self_eq_false] at h4 ⊢
  exact ⟨h4.1, trivial, _, rfl⟩

theorem sb_i2c_set_register_ret_ghost {σ : Type} {c : Csr σ} {fuel address data : Nat}
    {s s1 : Drv σ} {t : List Ev} (h : sb_i2c_set_register c fuel address data s = Res.ret () s1 t) :
    ghost t = [Ev.set_register address (data % 256)] := by
  have hg := sb_i2c_set_register_ghost c fuel address data s
  rw [h] at hg
  exact hg

/-- A register read performs no register write and no reset, in every outcome. -/
theorem sb_i2c_get_register_quiet {σ : Type} (c : Csr σ) (fuel address : Nat) (s : Drv σ) :
    regWrites (sb_i2c_get_register c fuel address s).trace = [] ∧
      resetCalls (sb_i2c_get_register c fuel address s).trace = 0 ∧
      statusReads (sb_i2c_get_register c fuel address s).trace ≤ 1 := by
  rw [← regWrites_ghost, ← resetCalls_ghost, ← statusReads_ghost, sb_i2c_get_register_ghost]
  split <;> simp [Ev.write?, Ev.isReset]
  split <;> simp

/-! ## The transaction engine: returning runs -/

theorem sb_i2c_send_command_ret {σ : Type} {c : Csr σ} {fuel command : Nat} {s s1 : Drv σ}
    {t : List Ev} (h : sb_i2c_send_command c fuel command s = Res.ret () s1 t) :
    ghost t = [Ev.set_register kSB_I2C_REGS_I2CCMDR (command % 256),
      Ev.set_register kSB_I2C_REGS_I2CCMDR 0] := by
  simp only [sb_i2c_send_command, bind_def] at h
  obtain ⟨_, s2, t1, t2, h1, h2, rfl⟩ := M.bind_ret.mp h
  simp [sb_i2c_set_register_ret_ghost h1, sb_i2c_set_register_ret_ghost h2]

theorem i2c_end_ret {σ : Type} {c : Csr σ} {fuel : Nat} {s s1 : Drv σ}
    {t : List Ev} (h : i2c_end c fuel s = Res.ret () s1 t) :
    ghost t = [Ev.set_register kSB_I2C_REGS_I2CCMDR 0x44] ∧
      s1.sbrwi_status = false ∧ s1.sbstbi_status = false := by
  unfold i2c_end at h
  refine ⟨?_, sb_i2c_set_register_ret h⟩
  rw [sb_i2c_set_register_ret_ghost h]
  rfl

theorem prescaler_lt {σ : Type} (c : Csr σ) : prescaler c < 65536 := by
  unfold prescaler prescalerOf
  omega

theorem prescaler_low_byte {σ : Type} (c : Csr σ) :
    (prescaler c &&& 0xFF) % 256 = prescaler c &&& 0xFF := by
  apply Nat.mod_eq_of_lt
  exact lt_of_le_of_lt Nat.and_le_right (by norm_num)

theorem prescaler_high_byte {σ : Type} (c : Csr σ) :
    (prescaler c >>> 8) % 256 = prescaler c >>> 8 := by
  apply Nat.mod_eq_of_lt
  have := prescaler_lt c
  rw [Nat.shiftRight_eq_div_pow]
  omega

theorem i2c_init_ret {σ : Type} {c : Csr σ} {fuel : Nat} {s s1 : Drv σ}
    {t : List Ev} (h : i2c_init c fuel s = Res.ret () s1 t) :
    ghost t = [Ev.set_register kSB_I2C_REGS_I2CCMDR 0x44,
      Ev.set_register kSB_I2C_REGS_I2CCR1 0x80,
      Ev.set_register kSB_I2C_REGS_I2CBRLSB (prescaler c &&& 0xFF),
      Ev.set_register kSB_I2C_REGS_I2CBRMSB (prescaler c >>> 8)] := by
  simp only [i2c_init, bind_def] at h
  obtain ⟨_, s2, t1, _, h1, h, e1⟩ := M.bind_ret.mp h
  obtain ⟨_, s3, t2, _, h2, h, e2⟩ := M.bind_ret.mp h
  obtain ⟨_, s4, t3, t4, h3, h4, e3⟩ := M.bind_ret.mp h
  subst e3 e2 e1
  simp only [ghost_append, (i2c_end_ret h1).1, sb_i2c_set_register_ret_ghost h2,
    sb_i2c_set_register_ret_ghost h3, sb_i2c_set_register_ret_ghost h4,
    prescaler_low_byte, prescaler_high_byte]
  rfl

/-! ## The wait helpers -/

/-- In every outcome, a wait helper's events before the call of
`i2c_reset` contain no register write and no reset, and at most `n`
status reads; `i2c_reset` is called only after `n` status reads. -/
theorem sb_i2c_wait_loop_trace {σ : Type} (c : Csr σ) (fuel mask : Nat) (reset : M σ Unit)
    (n : Nat) (s : Drv σ) :
    ∃ t0, regWrites t0 = [] ∧ resetCalls t0 = 0 ∧ statusReads t0 ≤ n ∧
      ((sb_i2c_wait_loop c fuel mask reset n s).trace = t0 ∨
        ∃ s1, (sb_i2c_wait_loop c fuel mask reset n s).trace = t0 ++ (reset s1).trace) := by
  induction n generalizing s with
  | zero => exact ⟨[], rfl, rfl, le_refl _, Or.inr ⟨s, by simp [sb_i2c_wait_loop]⟩⟩
  | succ n ih =>
    obtain ⟨hq1, hq2, hq3⟩ := sb_i2c_get_register_quiet c fuel kSB_I2C_REGS_I2CSR s
    simp only [sb_i2c_wait_loop, bind_def, M.bind_trace]
    cases hg : sb_i2c_get_register c fuel kSB_I2C_REGS_I2CSR s with
    | diverge tg =>
      rw [hg] at hq1 hq2 hq3
      simp only [Res.trace_diverge] at hq1 hq2 hq3 ⊢
      exact ⟨tg, hq1, hq2, by omega, Or.inl (by simp)⟩
    | ret sr s1 tg =>
      rw [hg] at hq1 hq2 hq3
      simp only [Res.trace_ret] at hq1 hq2 hq3 ⊢
      split_ifs with hb
      · exact ⟨tg, hq1, hq2, by omega, Or.inl (by simp [M.pure])⟩
      · obtain ⟨t0, h1, h2, h3, h4⟩ := ih s1
        refine ⟨tg ++ t0, by simp [hq1, h1], by simp [hq2, h2], ?_, ?_⟩
        · rw [statusReads_append]
          omega
        · rcases h4 with h4 | ⟨s2, h4⟩
          · exact Or.inl (by rw [h4])
          · exact Or.inr ⟨s2, by rw [h4, List.append_assoc]⟩

/-- A wait helper that returns either saw its flag, having performed no
register write and no reset, or polled `n` times and returned from `i2c_reset`. -/
theorem sb_i2c_wait_loop_ret {σ : Type} {c : Csr σ} {fuel mask : Nat} {reset : M σ Unit}
    {n : Nat} {s s2 : Drv σ} {t : List Ev}
    (h : sb_i2c_wait_loop c fuel mask reset n s = Res.ret () s2 t) :
    ∃ t0, regWrites t0 = [] ∧ resetCalls t0 = 0 ∧ statusReads t0 ≤ n ∧
      (t = t0 ∨ ∃ s1 t1, reset s1 = Res.ret () s2 t1 ∧ t = t0 ++ t1 ∧ statusReads t0 = n) := by
  induction n generalizing s t with
  | zero =>
    exact ⟨[], rfl, rfl, le_refl _, Or.inr ⟨s, t, by simpa [sb_i2c_wait_loop] using h, rfl, rfl⟩⟩
  | succ n ih =>
    simp only [sb_i2c_wait_loop, bind_def] at h
    obtain ⟨sr, s1, tg, t2, hg, hk, e1⟩ := M.bind_ret.mp h
    subst e1
    obtain ⟨hq1, hq2, hq3⟩ := sb_i2c_get_register_quiet c fuel kSB_I2C_REGS_I2CSR s
    have hq4 := (sb_i2c_get_register_ret hg).1
    have hq4 : statusReads tg = 1 := by
      rw [← statusReads_ghost, hq4]
      simp [Ev.isStatusRead]
    rw [hg] at hq1 hq2 hq3
    simp only [Res.trace_ret] at hq1 hq2 hq3
    split_ifs at hk with hb
    · simp only [pure_def, M.pure, Res.ret.injEq] at hk
      obtain ⟨-, -, rfl⟩ := hk
      exact ⟨tg, hq1, hq2, by omega, Or.inl (by simp)⟩
    · obtain ⟨t0, h1, h2, h3, h4⟩ := ih hk
      refine ⟨tg ++ t0, by simp [hq1, h1], by simp [hq2, h2], ?_, ?_⟩
      · rw [statusReads_append]
        omega
      · rcases h4 with h4 | ⟨s3, t1, h4, h5, h6⟩
        · exact Or.inl (by rw [h4])
        · exact Or.inr ⟨s3, t1, h4, by rw [h5, List.append_assoc], by
            rw [statusReads_append]
            omega⟩

/-- A wait helper whose first status read shows the flag returns after it. -/
theorem sb_i2c_wait_loop_ready {σ : Type} {c : Csr σ} {fuel mask : Nat} (reset : M σ Unit)
    (n : Nat) {s s1 : Drv σ} {v : Nat} {t : List Ev}
    (hg : sb_i2c_get_register c fuel kSB_I2C_REGS_I2CSR s = Res.ret v s1 t)
    (hv : v &&& mask ≠ 0) :
    sb_i2c_wait_loop c fuel mask reset (n + 1) s = Res.ret () s1 t := by
  simp only [sb_i2c_wait_loop, bind_def]
  refine M.bind_ret.mpr ⟨v, s1, t, [], hg, ?_, by simp⟩
  simp [hv, M.pure]

/-- A wait helper never returns when the flag never shows and `i2c_reset`
never returns. -/
theorem sb_i2c_wait_loop_stuck {σ : Type} {c : Csr σ} {fuel mask : Nat} {reset : M σ Unit}
    (hflag : ∀ hw, (c.sb_i2c_sbdato_read hw).1 % 256 &&& mask = 0)
    (hreset : ∀ s, (reset s).returns = false) (n : Nat) (s : Drv σ) :
    (sb_i2c_wait_loop c fuel mask reset n s).returns = false := by
  induction n generalizing s with
  | zero => simpa [sb_i2c_wait_loop] using hreset s
  | succ n ih =>
    simp only [sb_i2c_wait_loop, bind_def, M.bind_returns]
    cases hg : sb_i2c_get_register c fuel kSB_I2C_REGS_I2CSR s with
    | diverge tg => rfl
    | ret sr s1 tg =>
      obtain ⟨-, -, -, hw, rfl⟩ := sb_i2c_get_register_ret hg
      simp [hflag hw, ih]

/-! ## `i2c_begin` and `i2c_reset` -/

/-- The first observable action of `i2c_reset` is its own call. -/
theorem i2c_reset_trace_head {σ : Type} (c : Csr σ) (fuel : Nat) (s : Drv σ) :
    ∃ rest, (i2c_reset c fuel s).trace = Ev.i2c_reset :: rest := by
  cases fuel with
  | zero =>
    simp only [i2c_reset, bind_def, M.bind_trace, emit, Res.trace_ret, List.singleton_append]
    exact ⟨_, rfl⟩
  | succ n =>
    simp only [i2c_reset, bind_def, M.bind_trace, emit, Res.trace_ret, List.singleton_append]
    exact ⟨_, rfl⟩

theorem i2c_reset_resetCalls {σ : Type} (c : Csr σ) (fuel : Nat) (s : Drv σ) :
    1 ≤ resetCalls (i2c_reset c fuel s).trace := by
  obtain ⟨rest, h⟩ := i2c_reset_trace_head c fuel s
  rw [h]
  simp [Ev.isReset]

/-- The register writes of a write-direction `i2c_begin` that returns. -/
theorem i2c_begin_with_write_ret {σ : Type} {c : Csr σ} {fuel address : Nat} {reset : M σ Unit}
    {s s2 : Drv σ} {t : List Ev}
    (h : i2c_begin_with c fuel reset address false s = Res.ret () s2 t) :
    ∃ s1 t0 tw, t = t0 ++ tw ∧
      ghost t0 = [Ev.set_register kSB_I2C_REGS_I2CTXDR (((address % 256) <<< 1) % 256),
        Ev.set_register kSB_I2C_REGS_I2CCMDR 0x94, Ev.set_register kSB_I2C_REGS_I2CCMDR 0] ∧
      sb_i2c_wait_for_trrdy_with c fuel reset s1 = Res.ret () s2 tw := by
  simp only [i2c_begin_with, bind_def] at h
  obtain ⟨_, sa, ta, _, ha, h, e1⟩ := M.bind_ret.mp h
  obtain ⟨_, sb, tb, tw, hb, hw, e2⟩ := M.bind_ret.mp h
  subst e2 e1
  refine ⟨sb, ta ++ tb, tw, by simp, ?_, by simpa using hw⟩
  rw [ghost_append, sb_i2c_set_register_ret_ghost ha, sb_i2c_send_command_ret hb]
  simp
  rfl

/-- The register writes of a read-direction `i2c_begin` that returns. -/
theorem i2c_begin_with_read_ret {σ : Type} {c : Csr σ} {fuel address : Nat} {reset : M σ Unit}
    {s s3 : Drv σ} {t : List Ev}
    (h : i2c_begin_with c fuel reset address true s = Res.ret () s3 t) :
    ∃ s1 s2 t0 tw t2, t = t0 ++ tw ++ t2 ∧
      ghost t0 = [Ev.set_register kSB_I2C_REGS_I2CTXDR (((address % 256) <<< 1 ||| 1) % 256),
        Ev.set_register kSB_I2C_REGS_I2CCMDR 0x94, Ev.set_register kSB_I2C_REGS_I2CCMDR 0] ∧
      sb_i2c_wait_for_srw_with c fuel reset s1 = Res.ret () s2 tw ∧
      ghost t2 = [Ev.set_register kSB_I2C_REGS_I2CCMDR 0x24] := by
  simp only [i2c_begin_with, bind_def] at h
  obtain ⟨_, sa, ta, _, ha, h, e1⟩ := M.bind_ret.mp h
  obtain ⟨_, sb, tb, _, hb, h, e2⟩ := M.bind_ret.mp h
  simp only [if_true] at h
  obtain ⟨_, sc, tw, t2, hw, hc, e3⟩ := M.bind_ret.mp h
  subst e3 e2 e1
  refine ⟨sb, sc, ta ++ tb, tw, t2, by simp, ?_, hw, ?_⟩
  · rw [ghost_append, sb_i2c_set_register_ret_ghost ha, sb_i2c_send_command_ret hb]
    simp
    rfl
  · rw [sb_i2c_set_register_ret_ghost hc]
    rfl

/-- The register writes of a wait helper that returns, when its callee is `i2c_reset`. -/
theorem sb_i2c_wait_loop_writes {σ : Type} {c : Csr σ} {fuel mask n : Nat}
    {s s2 : Drv σ} {t : List Ev}
    (h : sb_i2c_wait_loop c fuel mask (i2c_reset c fuel) n s = Res.ret () s2 t) :
    WaitWrites c fuel (regWrites t) := by
  obtain ⟨t0, h1, -, -, h4⟩ := sb_i2c_wait_loop_ret h
  rcases h4 with rfl | ⟨s1, t1, hr, rfl, -⟩
  · exact Or.inl h1
  · exact Or.inr ⟨s1, s2, t1, hr, by simp [h1]⟩

/-- The register writes of `i2c_reset` when it returns. -/
theorem i2c_reset_ret {σ : Type} {c : Csr σ} {fuel : Nat} {s s2 : Drv σ} {t : List Ev}
    (h : i2c_reset c (fuel + 1) s = Res.ret () s2 t) :
    ∃ w1 w2, WaitWrites c fuel w1 ∧ WaitWrites c fuel w2 ∧
      regWrites t =
        [(kSB_I2C_REGS_I2CCMDR, 0x44), (kSB_I2C_REGS_I2CTXDR, 0), (kSB_I2C_REGS_I2CCMDR, 0x94),
          (kSB_I2C_REGS_I2CCMDR, 0)] ++ w1 ++
        [(kSB_I2C_REGS_I2CCMDR, 0x44), (kSB_I2C_REGS_I2CCMDR, 0x44), (kSB_I2C_REGS_I2CCR1, 0x80),
          (kSB_I2C_REGS_I2CBRLSB, prescaler c &&& 0xFF),
          (kSB_I2C_REGS_I2CBRMSB, prescaler c >>> 8), (kSB_I2C_REGS_I2CCMDR, 0x44),
          (kSB_I2C_REGS_I2CTXDR, 0), (kSB_I2C_REGS_I2CCMDR, 0x94), (kSB_I2C_REGS_I2CCMDR, 0)] ++
        w2 ++ [(kSB_I2C_REGS_I2CCMDR, 0x44)] := by
  simp only [i2c_reset, bind_def] at h
  obtain ⟨_, _, t0, _, h0, h, e0⟩ := M.bind_ret.mp h
  obtain ⟨_, _, t1, _, h1, h, e1⟩ := M.bind_ret.mp h
  obtain ⟨_, _, t2, _, h2, h, e2⟩ := M.bind_ret.mp h
  obtain ⟨_, _, t3, _, h3, h, e3⟩ := M.bind_ret.mp h
  obtain ⟨_, _, t4, _, h4, h, e4⟩ := M.bind_ret.mp h
  obtain ⟨_, _, t5, _, h5, h, e5⟩ := M.bind_ret.mp h
  obtain ⟨_, _, t6, t7, h6, h7, e6⟩ := M.bind_ret.mp h
  subst e6 e5 e4 e3 e2 e1 e0
  obtain ⟨_, ta, twa, rfl, hga, hwa⟩ := i2c_begin_with_write_ret h2
  obtain ⟨_, tb, twb, rfl, hgb, hwb⟩ := i2c_begin_with_write_ret h6
  refine ⟨regWrites twa, regWrites twb, sb_i2c_wait_loop_writes hwa,
    sb_i2c_wait_loop_writes hwb, ?_⟩
  simp only [emit, Res.ret.injEq] at h0
  obtain ⟨-, -, rfl⟩ := h0
  have e1 := congrArg regWrites (i2c_end_ret h1).1
  have e3 := congrArg regWrites (i2c_end_ret h3).1
  have e4 := congrArg regWrites (i2c_init_ret h4)
  have e5 := congrArg regWrites (i2c_end_ret h5).1
  have e7 := congrArg regWrites (i2c_end_ret h7).1
  have ea := congrArg regWrites hga
  have eb := congrArg regWrites hgb
  rw [regWrites_ghost] at e1 e3 e4 e5 e7 ea eb
  simp only [regWrites_append, e1, e3, e4, e5, e7, ea, eb]
  simp [Ev.write?]

/-! ## Runs that never return -/

theorem M.bind_returns_left {σ α β : Type} {m : M σ α} (f : α → M σ β) {s : Drv σ}
    (hm : (m s).returns = false) : (M.bind m f s).returns = false := by
  rw [M.bind_returns]
  cases h : m s with
  | ret a s1 t => simp [h] at hm
  | diverge t => rfl

theorem M.bind_returns_right {σ α β : Type} (m : M σ α) {f : α → M σ β} (s : Drv σ)
    (hf : ∀ a s1, (f a s1).returns = false) : (M.bind m f s).returns = false := by
  rw [M.bind_returns]
  cases h : m s with
  | ret a s1 t => exact hf a s1
  | diverge t => rfl

/-- With a transmit/receive-ready flag that never shows, `i2c_reset` never
returns: its dummy `i2c_begin` times out and calls `i2c_reset` again. -/
theorem i2c_reset_stuck {σ : Type} {c : Csr σ}
    (hflag : ∀ hw, (c.sb_i2c_sbdato_read hw).1 % 256 &&& kI2CSR_TRRDY_bm = 0)
    (fuel : Nat) (s : Drv σ) : (i2c_reset c fuel s).returns = false := by
  induction fuel generalizing s with
  | zero => simp [i2c_reset, M.bind_returns, emit, outOfFuel]
  | succ n ih =>
    simp only [i2c_reset, bind_def]
    apply M.bind_returns_right
    intro _ s1
    apply M.bind_returns_right
    intro _ s2
    apply M.bind_returns_left
    simp only [i2c_begin_with, bind_def]
    apply M.bind_returns_right
    intro _ s3
    apply M.bind_returns_right
    intro _ s4
    exact sb_i2c_wait_loop_stuck hflag ih _ s4

theorem sb_i2c_wait_for_trrdy_stuck {σ : Type} {c : Csr σ}
    (hflag : ∀ hw, (c.sb_i2c_sbdato_read hw).1 % 256 &&& kI2CSR_TRRDY_bm = 0)
    (fuel : Nat) (s : Drv σ) : (sb_i2c_wait_for_trrdy c fuel s).returns = false :=
  sb_i2c_wait_loop_stuck hflag (i2c_reset_stuck hflag fuel) _ s

/-! ## The claims -/

/-- C1 (code defect).  On a core that acknowledges every Bridge access and
whose status register never shows the transmit/receive-ready flag, a call
of `sb_i2c_wait_for_trrdy` does not return, whatever the fuel: after 127
status reads it calls `i2c_reset`, whose `i2c_begin(0x00, false)` waits
again, times out again and calls `i2c_reset` again.  With recursion depth 3
the run has already called `i2c_reset` three times and read the status
register 381 times. -/
theorem sb_i2c_wait_for_trrdy_never_ready_diverges :
    (∀ fuel, (sb_i2c_wait_for_trrdy (simCsr 100000000 fun _ => 0) fuel idle).returns = false) ∧
      resetCalls (sb_i2c_wait_for_trrdy (simCsr 100000000 fun _ => 0) 3 idle).trace = 3 ∧
      statusReads (sb_i2c_wait_for_trrdy (simCsr 100000000 fun _ => 0) 3 idle).trace = 381 := by
  refine ⟨fun fuel => sb_i2c_wait_for_trrdy_stuck (fun hw => ?_) fuel idle, ?_, ?_⟩
  · simp [simCsr]
  · decide!
  · decide!

/-- C2 (code defect).  With the status register as the register map
documents it (RARC, bit 5, is 1 when the slave acknowledged), `i2c_scan`
answers the wrong way round: for every 7-bit address it returns `false`
when the slave acknowledged (status `TRRDY|RARC = 0x24`) and `true` when it
did not (status `TRRDY = 0x04`). -/
theorem i2c_scan_polarity_inverted :
    ∀ address : Fin 128,
      (i2c_scan (simCsr 100000000 fun _ => 0x24) 1 address.val idle).val? = some false ∧
      (i2c_scan (simCsr 100000000 fun _ => 0x04) 1 address.val idle).val? = some true := by
  decide!

/-- C3.  Whenever `i2c_scan(address)` returns, it has run `i2c_begin(address,
false)`, `i2c_write(0x00)`, one read of the status register and `i2c_end`, in
this order; its result is `true` exactly when bit 5 (mask `0x20`) is clear in
the status value read there, and its last register write is the stop command
`0x44` to the command register. -/
theorem i2c_scan_result {σ : Type} (c : Csr σ) (fuel address : Nat) (s s4 : Drv σ) (b : Bool)
    (t : List Ev) (h : i2c_scan c fuel address s = Res.ret b s4 t) :
    ∃ s1 s2 s3 t1 t2 t3 t4 sr,
      i2c_begin c fuel address false s = Res.ret () s1 t1 ∧
      i2c_write c fuel 0x00 s1 = Res.ret () s2 t2 ∧
      sb_i2c_get_register c fuel kSB_I2C_REGS_I2CSR s2 = Res.ret sr s3 t3 ∧
      i2c_end c fuel s3 = Res.ret () s4 t4 ∧
      t = t1 ++ t2 ++ t3 ++ t4 ∧
      ghost (t3 ++ t4) =
        [Ev.get_register kSB_I2C_REGS_I2CSR sr, Ev.set_register kSB_I2C_REGS_I2CCMDR 0x44] ∧
      (b = true ↔ sr &&& 0x20 = 0) ∧
      (regWrites t).getLast? = some (kSB_I2C_REGS_I2CCMDR, 0x44) := by
  simp only [i2c_scan, bind_def] at h
  obtain ⟨_, s1, t1, _, h1, h, e1⟩ := M.bind_ret.mp h
  obtain ⟨_, s2, t2, _, h2, h, e2⟩ := M.bind_ret.mp h
  obtain ⟨sr, s3, t3, _, h3, h, e3⟩ := M.bind_ret.mp h
  obtain ⟨_, s5, t4, t5, h4, h5, e4⟩ := M.bind_ret.mp h
  subst e4 e3 e2 e1
  simp only [pure_def, M.pure, Res.ret.injEq] at h5
  obtain ⟨rfl, rfl, rfl⟩ := h5
  have g3 := (sb_i2c_get_register_ret h3).1
  have g4 := (i2c_end_ret h4).1
  refine ⟨s1, s2, s3, t1, t2, t3, t4, sr, h1, h2, h3, h4, by simp, by simp [g3, g4], ?_, ?_⟩
  · simp [kI2CSR_RARC_bm]
  · have e4 := congrArg regWrites g4
    rw [regWrites_ghost] at e4
    simp [e4, Ev.write?]

/-- A core on which `i2c_scan` returns: every access acknowledged, status always `TRRDY`. -/
theorem i2c_scan_result_witness :
    ∃ s4 t, i2c_scan (simCsr 100000000 fun _ => 0x04) 1 0x50 idle = Res.ret true s4 t ∧
      (regWrites t).getLast? = some (kSB_I2C_REGS_I2CCMDR, 0x44) := by
  have hr : (i2c_scan (simCsr 100000000 fun _ => 0x04) 1 0x50 idle).val? = some true := by decide!
  cases h : i2c_scan (simCsr 100000000 fun _ => 0x04) 1 0x50 idle with
  | diverge t => simp [h] at hr
  | ret b s4 t =>
    simp only [h, Res.val?_ret, Option.some.injEq] at hr
    subst hr
    obtain ⟨_, _, _, _, _, _, _, _, -, -, -, -, -, -, -, hl⟩ :=
      i2c_scan_result (simCsr 100000000 fun _ => 0x04) 1 0x50 idle s4 true t h
    exact ⟨s4, t, rfl, hl⟩

/-- C4.  For a clock frequency `f` of at least 1.6 MHz whose quotient fits
sixteen bits, the constant `prescaler` (two truncating divisions, minus one,
stored in a `uint16_t`) equals `f / (400000 * 4) - 1`; for 100 MHz it is 61. -/
theorem prescaler_formula (f : Nat) (h1 : 1600000 ≤ f) (h2 : f / 1600000 - 1 < 65536) :
    prescalerOf f = f / (400000 * 4) - 1 ∧ prescalerOf 100000000 = 61 := by
  refine ⟨?_, by decide⟩
  unfold prescalerOf kSB_I2C_CONFIG_TARGET_I2C_FREQUENCY
  have h3 : f / 400000 / 4 = f / 1600000 := by rw [Nat.div_div_eq_div_mul]
  have h4 : ((f : Int) / ((400000 : Nat) : Int)) / 4 = ((f / 400000 / 4 : Nat) : Int) := by
    push_cast
    rfl
  rw [h4, h3]
  have h5 : 1 ≤ f / 1600000 := by omega
  omega

/-- The 100 MHz system clock of the claim. -/
theorem prescaler_formula_witness :
    prescalerOf 100000000 = 100000000 / (400000 * 4) - 1 ∧ prescalerOf 100000000 = 61 :=
  prescaler_formula 100000000 (by decide) (by decide)

/-- C5.  On every hardware and in every outcome, the first register access
of `i2c_read(true)` is the write of `ACK|RD|STO|CKSDIS = 0x6C` to the command
register (address 9); the value has the NACK-control flag (bit 3) and the
STOP flag (bit 6) set; and when `i2c_read(true)` returns `v`, its last
register access is the read of the receive-data register (address 14) that
delivered `v`, after that write. -/
theorem i2c_read_last_command {σ : Type} (c : Csr σ) (fuel : Nat) (s : Drv σ) :
    (0 ||| kI2CCMDR_CKSDIS_bm ||| kI2CCMDR_ACK_bm ||| kI2CCMDR_RD_bm ||| kI2CCMDR_STO_bm = 0x6C) ∧
      0x6C &&& kI2CCMDR_ACK_bm ≠ 0 ∧ 0x6C &&& kI2CCMDR_STO_bm ≠ 0 ∧
      (∃ rest, ghost (i2c_read c fuel true s).trace = Ev.set_register 9 0x6C :: rest) ∧
      ∀ v s1 t, i2c_read c fuel true s = Res.ret v s1 t →
        ∃ mid, ghost t = Ev.set_register 9 0x6C :: (mid ++ [Ev.get_register 14 v]) := by
  refine ⟨by decide, by decide, by decide, ?_, ?_⟩
  · simp only [i2c_read, Bool.not_true, Bool.false_eq_true, if_false, bind_def, M.bind_trace,
      ghost_append, sb_i2c_set_register_ghost]
    exact ⟨_, rfl⟩
  · intro v s1 t h
    simp only [i2c_read, Bool.not_true, Bool.false_eq_true, if_false, bind_def] at h
    obtain ⟨_, _, t1, _, h1, h, e1⟩ := M.bind_ret.mp h
    obtain ⟨_, _, t2, t3, h2, h3, e2⟩ := M.bind_ret.mp h
    subst e2 e1
    refine ⟨ghost t2, ?_⟩
    rw [ghost_append, ghost_append, sb_i2c_set_register_ret_ghost h1,
      (sb_i2c_get_register_ret h3).1]
    rfl

/-- A core on which `i2c_read(true)` returns: it returns the byte `0x04` read last. -/
theorem i2c_read_last_command_witness :
    ∃ s1 t mid, i2c_read (simCsr 100000000 fun _ => 0x04) 1 true idle = Res.ret 0x04 s1 t ∧
      ghost t = Ev.set_register 9 0x6C :: (mid ++ [Ev.get_register 14 0x04]) := by
  have hr : (i2c_read (simCsr 100000000 fun _ => 0x04) 1 true idle).val? = some 0x04 := by decide!
  cases h : i2c_read (simCsr 100000000 fun _ => 0x04) 1 true idle with
  | diverge t => simp [h] at hr
  | ret v s1 t =>
    simp only [h, Res.val?_ret, Option.some.injEq] at hr
    subst hr
    obtain ⟨mid, hm⟩ :=
      (i2c_read_last_command (simCsr 100000000 fun _ => 0x04) 1 idle).2.2.2.2 4 s1 t h
    exact ⟨s1, t, mid, rfl, hm⟩

/-- C6 (as stated, refuted).  On a core whose status register shows the
ready flag only from the 128th read on, `i2c_read(false)` returns, and on
the way it has written the stop command `0x44`, which has the STOP flag
(mask `0x40`) set, to the command register: the wait timed out and
`i2c_reset` released the bus. -/
theorem i2c_read_not_last_stop_after_timeout :
    (i2c_read (simCsr 100000000 fun k => if k < 127 then 0 else 4) 2 false idle).returns = true ∧
      (kSB_I2C_REGS_I2CCMDR, 0x44) ∈
        regWrites (i2c_read (simCsr 100000000 fun k => if k < 127 then 0 else 4) 2 false idle).trace ∧
      0x44 &&& kI2CCMDR_STO_bm ≠ 0 := by
  decide!

/-- C6 (amended).  On every hardware and in every outcome, a call of
`i2c_read(false)` during which `i2c_reset` is not called (the wait for the
ready flag does not time out) performs no register write at all, so none
with the STOP flag. -/
theorem i2c_read_not_last_no_write {σ : Type} (c : Csr σ) (fuel : Nat) (s : Drv σ)
    (h : resetCalls (i2c_read c fuel false s).trace = 0) :
    regWrites (i2c_read c fuel false s).trace = [] := by
  simp only [i2c_read, Bool.not_false, if_true, bind_def, M.bind_trace, resetCalls_append,
    regWrites_append] at h ⊢
  obtain ⟨t0, h1, h2, -, h4⟩ :=
    sb_i2c_wait_loop_trace c fuel kI2CSR_TRRDY_bm (i2c_reset c fuel) kSB_I2C_CONFIG_TRRDY_TIMEOUT s
  have hw : regWrites (sb_i2c_wait_for_trrdy c fuel s).trace = [] := by
    rcases h4 with h4 | ⟨s1, h4⟩
    · have h4 : (sb_i2c_wait_for_trrdy c fuel s).trace = t0 := h4
      rw [h4]
      exact h1
    · have h4 : (sb_i2c_wait_for_trrdy c fuel s).trace = t0 ++ (i2c_reset c fuel s1).trace := h4
      rw [h4, resetCalls_append] at h
      have := i2c_reset_resetCalls c fuel s1
      omega
  rw [hw]
  cases hr : sb_i2c_wait_for_trrdy c fuel s with
  | diverge t => simp
  | ret a s1 t => simpa using (sb_i2c_get_register_quiet c fuel kSB_I2C_REGS_I2CRXDR s1).1

/-- A core that is ready at the first poll: `i2c_read(false)` calls no reset and writes nothing. -/
theorem i2c_read_not_last_no_write_witness :
    resetCalls (i2c_read (simCsr 100000000 fun _ => 4) 1 false idle).trace = 0 ∧
      regWrites (i2c_read (simCsr 100000000 fun _ => 4) 1 false idle).trace = [] :=
  ⟨by decide!, i2c_read_not_last_no_write (simCsr 100000000 fun _ => 4) 1 idle (by decide!)⟩

/-! ## Command pulses -/

theorem pulsedExcept_append {ex : List Nat} {l1 l2 : List (Nat × Nat)}
    (h1 : pulsedExcept ex l1 = true) (h2 : pulsedExcept ex l2 = true) :
    pulsedExcept ex (l1 ++ l2) = true := by
  induction l1 with
  | nil => simpa using h2
  | cons w rest ih =>
    simp only [pulsedExcept, Bool.and_eq_true] at h1
    simp only [List.cons_append, pulsedExcept, Bool.and_eq_true]
    refine ⟨?_, ih h1.2⟩
    cases rest with
    | nil =>
      have h := h1.1
      simp only [List.head?_nil, Bool.or_eq_true] at h
      rcases h with h | h
      · simp only [Bool.or_eq_true]
        exact Or.inl h
      · exact absurd h (by simp)
    | cons w2 rest2 => simpa using h1.1

theorem pulsedExcept_of_waitWrites {σ : Type} {c : Csr σ} {fuel : Nat} {w : List (Nat × Nat)}
    (ih : ∀ s s2 t, i2c_reset c fuel s = Res.ret () s2 t →
      pulsedExcept unclearedCommands (regWrites t) = true)
    (hw : WaitWrites c fuel w) : pulsedExcept unclearedCommands w = true := by
  rcases hw with rfl | ⟨s1, s2, t1, hr, rfl⟩
  · rfl
  · exact ih s1 s2 t1 hr

/-- Every returning `i2c_reset` writes its commands as pulses, the uncleared ones apart. -/
theorem i2c_reset_pulsed {σ : Type} (c : Csr σ) (fuel : Nat) :
    ∀ s s2 t, i2c_reset c fuel s = Res.ret () s2 t →
      pulsedExcept unclearedCommands (regWrites t) = true := by
  induction fuel with
  | zero =>
    intro s s2 t h
    simp only [i2c_reset, bind_def] at h
    obtain ⟨_, _, _, _, -, h, -⟩ := M.bind_ret.mp h
    simp [outOfFuel] at h
  | succ n ih =>
    intro s s2 t h
    obtain ⟨w1, w2, hw1, hw2, e⟩ := i2c_reset_ret h
    rw [e]
    have p1 := pulsedExcept_of_waitWrites ih hw1
    have p2 := pulsedExcept_of_waitWrites ih hw2
    refine pulsedExcept_append (pulsedExcept_append (pulsedExcept_append
      (pulsedExcept_append ?_ p1) ?_) p2) ?_
    · decide
    · simp [pulsedExcept, unclearedCommands, kSB_I2C_REGS_I2CCMDR, kSB_I2C_REGS_I2CCR1,
        kSB_I2C_REGS_I2CBRLSB, kSB_I2C_REGS_I2CBRMSB, kSB_I2C_REGS_I2CTXDR]
      decide
    · decide

/-- The writes of a returning wait helper are pulses, the uncleared commands apart. -/
theorem sb_i2c_wait_loop_pulsed {σ : Type} {c : Csr σ} {fuel mask n : Nat} {s s2 : Drv σ}
    {t : List Ev} (h : sb_i2c_wait_loop c fuel mask (i2c_reset c fuel) n s = Res.ret () s2 t) :
    pulsedExcept unclearedCommands (regWrites t) = true :=
  pulsedExcept_of_waitWrites (i2c_reset_pulsed c fuel) (sb_i2c_wait_loop_writes h)

/-- The register-level events of `i2c_write` when it returns. -/
theorem i2c_write_ret {σ : Type} {c : Csr σ} {fuel data : Nat} {s s2 : Drv σ} {t : List Ev}
    (h : i2c_write c fuel data s = Res.ret () s2 t) :
    ∃ s1 t0 tw, t = t0 ++ tw ∧
      ghost t0 = [Ev.set_register kSB_I2C_REGS_I2CTXDR (data % 256),
        Ev.set_register kSB_I2C_REGS_I2CCMDR 0x14, Ev.set_register kSB_I2C_REGS_I2CCMDR 0] ∧
      sb_i2c_wait_for_trrdy c fuel s1 = Res.ret () s2 tw := by
  simp only [i2c_write, bind_def] at h
  obtain ⟨_, sa, ta, _, ha, h, e1⟩ := M.bind_ret.mp h
  obtain ⟨_, sb, tb, tw, hb, hw, e2⟩ := M.bind_ret.mp h
  subst e2 e1
  refine ⟨sb, ta ++ tb, tw, by simp, ?_, hw⟩
  rw [ghost_append, sb_i2c_set_register_ret_ghost ha, sb_i2c_send_command_ret hb]
  rfl

theorem pulsedExcept_regWrites_of_ghost {t : List Ev} {g : List Ev} (hg : ghost t = g)
    (hp : pulsedExcept unclearedCommands (regWrites g) = true) :
    pulsedExcept unclearedCommands (regWrites t) = true := by
  rw [← regWrites_ghost, hg]
  exact hp

theorem i2c_begin_pulsed {σ : Type} {c : Csr σ} {fuel address : Nat} {is_read_cmd : Bool}
    {s s2 : Drv σ} {t : List Ev}
    (h : i2c_begin c fuel address is_read_cmd s = Res.ret () s2 t) :
    pulsedExcept unclearedCommands (regWrites t) = true := by
  cases is_read_cmd with
  | false =>
    obtain ⟨s1, t0, tw, rfl, hg, hw⟩ := i2c_begin_with_write_ret h
    rw [regWrites_append]
    refine pulsedExcept_append (pulsedExcept_regWrites_of_ghost hg ?_) (sb_i2c_wait_loop_pulsed hw)
    simp [Ev.write?, pulsedExcept, kSB_I2C_REGS_I2CCMDR, kSB_I2C_REGS_I2CTXDR]
  | true =>
    obtain ⟨s1, s3, t0, tw, t2, rfl, hg, hw, hg2⟩ := i2c_begin_with_read_ret h
    rw [regWrites_append, regWrites_append]
    refine pulsedExcept_append (pulsedExcept_append (pulsedExcept_regWrites_of_ghost hg ?_)
      (sb_i2c_wait_loop_pulsed hw)) (pulsedExcept_regWrites_of_ghost hg2 (by decide))
    simp [Ev.write?, pulsedExcept, kSB_I2C_REGS_I2CCMDR, kSB_I2C_REGS_I2CTXDR]

theorem i2c_write_pulsed {σ : Type} {c : Csr σ} {fuel data : Nat} {s s2 : Drv σ} {t : List Ev}
    (h : i2c_write c fuel data s = Res.ret () s2 t) :
    pulsedExcept unclearedCommands (regWrites t) = true := by
  obtain ⟨s1, t0, tw, rfl, hg, hw⟩ := i2c_write_ret h
  rw [regWrites_append]
  refine pulsedExcept_append (pulsedExcept_regWrites_of_ghost hg ?_) (sb_i2c_wait_loop_pulsed hw)
  simp [Ev.write?, pulsedExcept, kSB_I2C_REGS_I2CCMDR, kSB_I2C_REGS_I2CTXDR]

theorem i2c_end_pulsed {σ : Type} {c : Csr σ} {fuel : Nat} {s s2 : Drv σ} {t : List Ev}
    (h : i2c_end c fuel s = Res.ret () s2 t) :
    pulsedExcept unclearedCommands (regWrites t) = true :=
  pulsedExcept_regWrites_of_ghost (i2c_end_ret h).1 (by decide)

theorem i2c_init_pulsed {σ : Type} {c : Csr σ} {fuel : Nat} {s s2 : Drv σ} {t : List Ev}
    (h : i2c_init c fuel s = Res.ret () s2 t) :
    pulsedExcept unclearedCommands (regWrites t) = true := by
  refine pulsedExcept_regWrites_of_ghost (i2c_init_ret h) ?_
  simp [Ev.write?, pulsedExcept, kSB_I2C_REGS_I2CCMDR, kSB_I2C_REGS_I2CCR1,
    kSB_I2C_REGS_I2CBRLSB, kSB_I2C_REGS_I2CBRMSB, unclearedCommands]
  decide

theorem i2c_read_pulsed {σ : Type} {c : Csr σ} {fuel v : Nat} {is_last_read : Bool}
    {s s2 : Drv σ} {t : List Ev} (h : i2c_read c fuel is_last_read s = Res.ret v s2 t) :
    pulsedExcept unclearedCommands (regWrites t) = true := by
  cases is_last_read with
  | false =>
    simp only [i2c_read, Bool.not_false, if_true, bind_def] at h
    obtain ⟨_, s1, tw, tr, hw, hr, e1⟩ := M.bind_ret.mp h
    subst e1
    have hq := (sb_i2c_get_register_quiet c fuel kSB_I2C_REGS_I2CRXDR s1).1
    rw [hr] at hq
    rw [regWrites_append]
    exact pulsedExcept_append (sb_i2c_wait_loop_pulsed hw) (by simpa using congrArg _ hq)
  | true =>
    simp only [i2c_read, Bool.not_true, Bool.false_eq_true, if_false, bind_def] at h
    obtain ⟨_, s0, tc, _, hc, h, e0⟩ := M.bind_ret.mp h
    obtain ⟨_, s1, tw, tr, hw, hr, e1⟩ := M.bind_ret.mp h
    subst e1 e0
    have hq := (sb_i2c_get_register_quiet c fuel kSB_I2C_REGS_I2CRXDR s1).1
    rw [hr] at hq
    rw [regWrites_append, regWrites_append]
    refine pulsedExcept_append (pulsedExcept_regWrites_of_ghost
      (sb_i2c_set_register_ret_ghost hc) (by decide))
      (pulsedExcept_append (sb_i2c_wait_loop_pulsed hw) (by simpa using congrArg _ hq))

theorem i2c_scan_pulsed {σ : Type} {c : Csr σ} {fuel address : Nat} {b : Bool}
    {s s2 : Drv σ} {t : List Ev} (h : i2c_scan c fuel address s = Res.ret b s2 t) :
    pulsedExcept unclearedCommands (regWrites t) = true := by
  simp only [i2c_scan, bind_def] at h
  obtain ⟨_, s1, t1, _, h1, h, e1⟩ := M.bind_ret.mp h
  obtain ⟨_, s3, t2, _, h2, h, e2⟩ := M.bind_ret.mp h
  obtain ⟨sr, s4, t3, _, h3, h, e3⟩ := M.bind_ret.mp h
  obtain ⟨_, s5, t4, t5, h4, h5, e4⟩ := M.bind_ret.mp h
  subst e4 e3 e2 e1
  simp only [pure_def, M.pure, Res.ret.injEq] at h5
  obtain ⟨-, -, rfl⟩ := h5
  have hq := (sb_i2c_get_register_quiet c fuel kSB_I2C_REGS_I2CSR s3).1
  rw [h3] at hq
  simp only [Res.trace_ret] at hq
  simp only [regWrites_append, hq, regWrites_nil, List.append_nil, List.nil_append]
  exact pulsedExcept_append (i2c_begin_pulsed h1)
    (pulsedExcept_append (i2c_write_pulsed h2) (i2c_end_pulsed h4))

/-- C7 (as stated, refuted).  `i2c_end` returns after a single register
write, the non-zero stop command `0x44` to the command register, with no
write of `0x00` after it: its register-write trace is not a trace of pulses. -/
theorem i2c_end_command_not_cleared :
    (i2c_end (simCsr 100000000 fun _ => 4) 1 idle).returns = true ∧
      regWrites (i2c_end (simCsr 100000000 fun _ => 4) 1 idle).trace
        = [(kSB_I2C_REGS_I2CCMDR, 0x44)] ∧
      pulsed (regWrites (i2c_end (simCsr 100000000 fun _ => 4) 1 idle).trace) = false := by
  decide!

/-- C7 (amended).  In the register-write trace of every public operation
that returns, every write of a non-zero value to the command register,
other than the stop command `0x44`, the receive command `0x24` and the
last-read command `0x6C`, is followed, as the next register write, by a
write of `0x00` to the command register. -/
theorem command_pulses {σ : Type} (c : Csr σ) (fuel : Nat) (s s2 : Drv σ) (t : List Ev) :
    (i2c_init c fuel s = Res.ret () s2 t →
      pulsedExcept [0x44, 0x24, 0x6C] (regWrites t) = true) ∧
    (∀ address is_read_cmd, i2c_begin c fuel address is_read_cmd s = Res.ret () s2 t →
      pulsedExcept [0x44, 0x24, 0x6C] (regWrites t) = true) ∧
    (∀ data, i2c_write c fuel data s = Res.ret () s2 t →
      pulsedExcept [0x44, 0x24, 0x6C] (regWrites t) = true) ∧
    (∀ is_last_read v, i2c_read c fuel is_last_read s = Res.ret v s2 t →
      pulsedExcept [0x44, 0x24, 0x6C] (regWrites t) = true) ∧
    (i2c_end c fuel s = Res.ret () s2 t →
      pulsedExcept [0x44, 0x24, 0x6C] (regWrites t) = true) ∧
    (∀ address b, i2c_scan c fuel address s = Res.ret b s2 t →
      pulsedExcept [0x44, 0x24, 0x6C] (regWrites t) = true) :=
  ⟨fun h => i2c_init_pulsed h, fun _ _ h => i2c_begin_pulsed h, fun _ h => i2c_write_pulsed h,
    fun _ _ h => i2c_read_pulsed h, fun h => i2c_end_pulsed h, fun _ _ h => i2c_scan_pulsed h⟩

/-- A returning `i2c_write(0xAA)`: its command `0x14` is cleared at once. -/
theorem command_pulses_witness :
    ∃ s2 t, i2c_write (simCsr 100000000 fun _ => 4) 1 0xAA idle = Res.ret () s2 t ∧
      pulsedExcept [0x44, 0x24, 0x6C] (regWrites t) = true := by
  have hr : (i2c_write (simCsr 100000000 fun _ => 4) 1 0xAA idle).returns = true := by decide!
  obtain ⟨_, s2, t, h⟩ := (Res.returns_iff _).mp hr
  exact ⟨s2, t, h, (command_pulses (simCsr 100000000 fun _ => 4) 1 idle s2 t).2.2.1 0xAA h⟩

/-! ## The register file after a trace -/

@[simp] theorem applyWrites_nil (regs : Nat → Nat) : applyWrites regs [] = regs := rfl

@[simp] theorem applyWrites_cons (regs : Nat → Nat) (w : Nat × Nat) (ws : List (Nat × Nat)) :
    applyWrites regs (w :: ws) = applyWrites (Function.update regs w.1 w.2) ws := rfl

theorem applyWrites_append (regs : Nat → Nat) (l1 l2 : List (Nat × Nat)) :
    applyWrites regs (l1 ++ l2) = applyWrites (applyWrites regs l1) l2 := by
  simp [applyWrites, List.foldl_append]

/-- The register state `i2c_reset` establishes, by induction on the depth of
the recursion through the wait helper. -/
theorem i2c_reset_resetFinal {σ : Type} (c : Csr σ) (fuel : Nat) :
    ∀ s s2 t, i2c_reset c fuel s = Res.ret () s2 t → ResetFinal c (regWrites t) := by
  induction fuel with
  | zero =>
    intro s s2 t h
    simp only [i2c_reset, bind_def] at h
    obtain ⟨_, _, _, _, -, h, -⟩ := M.bind_ret.mp h
    simp [outOfFuel] at h
  | succ n ih =>
    intro s s2 t h
    obtain ⟨w1, w2, -, hw2, e⟩ := i2c_reset_ret h
    rw [e]
    refine ⟨List.getLast?_concat _, fun regs => ?_⟩
    rcases hw2 with rfl | ⟨s1, s3, t1, hr, rfl⟩
    · simp [applyWrites_append, Function.update, kSB_I2C_REGS_I2CCMDR, kSB_I2C_REGS_I2CCR1,
        kSB_I2C_REGS_I2CBRLSB, kSB_I2C_REGS_I2CBRMSB, kSB_I2C_REGS_I2CTXDR]
    · have hf := (ih s1 s3 t1 hr).2
      simp only [applyWrites_append, applyWrites_cons, applyWrites_nil]
      refine ⟨?_, ?_, ?_⟩
      · rw [Function.update_noteq (by decide)]
        exact (hf _).1
      · rw [Function.update_noteq (by decide)]
        exact (hf _).2.1
      · rw [Function.update_noteq (by decide)]
        exact (hf _).2.2

/-- C8.  Whenever `i2c_reset` returns, on any hardware and from any state,
its last register write is the stop command `0x44` to the command register,
and whatever the registers held before, the control register holds `0x80`
and the prescale registers hold `prescaler & 0xFF` and `prescaler >> 8`. -/
theorem i2c_reset_final {σ : Type} (c : Csr σ) (fuel : Nat) (s s2 : Drv σ) (t : List Ev)
    (regs : Nat → Nat) (h : i2c_reset c fuel s = Res.ret () s2 t) :
    (regWrites t).getLast? = some (kSB_I2C_REGS_I2CCMDR, 0x44) ∧
      applyWrites regs (regWrites t) kSB_I2C_REGS_I2CCR1
        = (0 ||| kI2CCR1_SDA_DEL_SEL_300NS_gc ||| kI2CCR1_I2CEN_bm) ∧
      applyWrites regs (regWrites t) kSB_I2C_REGS_I2CBRLSB = prescaler c &&& 0xFF ∧
      applyWrites regs (regWrites t) kSB_I2C_REGS_I2CBRMSB = prescaler c >>> 8 := by
  obtain ⟨h1, h2⟩ := i2c_reset_resetFinal c fuel s s2 t h
  exact ⟨h1, h2 regs⟩

/-- A core that is always ready: `i2c_reset` returns, for a 100 MHz clock
with the prescaler bytes 61 and 0. -/
theorem i2c_reset_final_witness :
    ∃ s2 t, i2c_reset (simCsr 100000000 fun _ => 4) 2 idle = Res.ret () s2 t ∧
      (regWrites t).getLast? = some (kSB_I2C_REGS_I2CCMDR, 0x44) ∧
      applyWrites (fun _ => 0xFF) (regWrites t) kSB_I2C_REGS_I2CCR1 = 0x80 ∧
      applyWrites (fun _ => 0xFF) (regWrites t) kSB_I2C_REGS_I2CBRLSB = 61 ∧
      applyWrites (fun _ => 0xFF) (regWrites t) kSB_I2C_REGS_I2CBRMSB = 0 := by
  have hr : (i2c_reset (simCsr 100000000 fun _ => 4) 2 idle).returns = true := by decide!
  obtain ⟨_, s2, t, h⟩ := (Res.returns_iff _).mp hr
  exact ⟨s2, t, h, i2c_reset_final (simCsr 100000000 fun _ => 4) 2 idle s2 t (fun _ => 0xFF) h⟩

/-! ## Runs on hardware that acknowledges every access -/

theorem simCsr_acks (clockFrequency : Nat) (f : Nat → Nat) :
    BridgeAcks (simCsr clockFrequency f) 1 := by
  intro s
  simp [sb_ack_wait, M.bind_returns, sb_i2c_get_sb_ack, simCsr, M.pure]

theorem sb_i2c_set_register_runs {σ : Type} {c : Csr σ} {fuel : Nat} (hack : BridgeAcks c fuel)
    (address data : Nat) (s : Drv σ) :
    ∃ s1 t, sb_i2c_set_register c fuel address data s = Res.ret () s1 t ∧
      ghost t = [Ev.set_register address (data % 256)] ∧
      s1.sbrwi_status = false ∧ s1.sbstbi_status = false := by
  obtain ⟨_, s1, t, h⟩ := (Res.returns_iff _).mp (sb_i2c_set_register_returns hack address data s)
  exact ⟨s1, t, h, sb_i2c_set_register_ret_ghost h, sb_i2c_set_register_ret h⟩

theorem sb_i2c_get_register_runs {σ : Type} {c : Csr σ} {fuel : Nat} (hack : BridgeAcks c fuel)
    (address : Nat) (s : Drv σ) :
    ∃ v s1 t, sb_i2c_get_register c fuel address s = Res.ret v s1 t ∧
      ghost t = [Ev.get_register address v] ∧
      ∃ hw, v = (c.sb_i2c_sbdato_read hw).1 % 256 := by
  obtain ⟨v, s1, t, h⟩ := (Res.returns_iff _).mp (sb_i2c_get_register_returns hack address s)
  obtain ⟨h1, -, -, h4⟩ := sb_i2c_get_register_ret h
  exact ⟨v, s1, t, h, h1, h4⟩

theorem sb_i2c_send_command_runs {σ : Type} {c : Csr σ} {fuel : Nat} (hack : BridgeAcks c fuel)
    (command : Nat) (s : Drv σ) :
    ∃ s1 t, sb_i2c_send_command c fuel command s = Res.ret () s1 t ∧
      ghost t = [Ev.set_register kSB_I2C_REGS_I2CCMDR (command % 256),
        Ev.set_register kSB_I2C_REGS_I2CCMDR 0] := by
  obtain ⟨s1, t1, h1, -⟩ := sb_i2c_set_register_runs hack kSB_I2C_REGS_I2CCMDR command s
  obtain ⟨s2, t2, h2, -⟩ := sb_i2c_set_register_runs hack kSB_I2C_REGS_I2CCMDR 0x00 s1
  have h : sb_i2c_send_command c fuel command s = Res.ret () s2 (t1 ++ t2) :=
    M.bind_of_ret h1 h2
  exact ⟨s2, _, h, sb_i2c_send_command_ret h⟩

theorem i2c_end_runs {σ : Type} {c : Csr σ} {fuel : Nat} (hack : BridgeAcks c fuel) (s : Drv σ) :
    ∃ s1 t, i2c_end c fuel s = Res.ret () s1 t ∧
      ghost t = [Ev.set_register kSB_I2C_REGS_I2CCMDR 0x44] ∧
      s1.sbrwi_status = false ∧ s1.sbstbi_status = false := by
  obtain ⟨s1, t, h, -⟩ := sb_i2c_set_register_runs hack kSB_I2C_REGS_I2CCMDR
    (0 ||| kI2CCMDR_CKSDIS_bm ||| kI2CCMDR_STO_bm) s
  exact ⟨s1, t, h, i2c_end_ret h⟩

theorem i2c_init_runs {σ : Type} {c : Csr σ} {fuel : Nat} (hack : BridgeAcks c fuel) (s : Drv σ) :
    ∃ s1 t, i2c_init c fuel s = Res.ret () s1 t ∧
      ghost t = [Ev.set_register kSB_I2C_REGS_I2CCMDR 0x44,
        Ev.set_register kSB_I2C_REGS_I2CCR1 0x80,
        Ev.set_register kSB_I2C_REGS_I2CBRLSB (prescaler c &&& 0xFF),
        Ev.set_register kSB_I2C_REGS_I2CBRMSB (prescaler c >>> 8)] := by
  obtain ⟨s1, t1, h1, -⟩ := i2c_end_runs hack s
  obtain ⟨s2, t2, h2, -⟩ := sb_i2c_set_register_runs hack kSB_I2C_REGS_I2CCR1
    (0 ||| kI2CCR1_SDA_DEL_SEL_300NS_gc ||| kI2CCR1_I2CEN_bm) s1
  obtain ⟨s3, t3, h3, -⟩ := sb_i2c_set_register_runs hack kSB_I2C_REGS_I2CBRLSB
    (prescaler c &&& 0xFF) s2
  obtain ⟨s4, t4, h4, -⟩ := sb_i2c_set_register_runs hack kSB_I2C_REGS_I2CBRMSB
    (prescaler c >>> 8) s3
  have h : i2c_init c fuel s = Res.ret () s4 (t1 ++ (t2 ++ (t3 ++ t4))) :=
    M.bind_of_ret h1 (M.bind_of_ret h2 (M.bind_of_ret h3 h4))
  exact ⟨s4, _, h, i2c_init_ret h⟩

/-- On a core that always reports the flag, a wait helper returns after one status read. -/
theorem sb_i2c_wait_loop_runs {σ : Type} {c : Csr σ} {fuel mask : Nat} (hack : BridgeAcks c fuel)
    (hready : ∀ hw, (c.sb_i2c_sbdato_read hw).1 % 256 &&& mask ≠ 0)
    (reset : M σ Unit) (n : Nat) (s : Drv σ) :
    ∃ v s1 t, sb_i2c_wait_loop c fuel mask reset (n + 1) s = Res.ret () s1 t ∧
      ghost t = [Ev.get_register kSB_I2C_REGS_I2CSR v] := by
  obtain ⟨v, s1, t, h, hg, hw, rfl⟩ := sb_i2c_get_register_runs hack kSB_I2C_REGS_I2CSR s
  exact ⟨_, s1, t, sb_i2c_wait_loop_ready reset n h (hready hw), hg⟩

theorem i2c_begin_write_runs {σ : Type} {c : Csr σ} {fuel : Nat} (hack : BridgeAcks c fuel)
    (hready : ∀ hw, (c.sb_i2c_sbdato_read hw).1 % 256 &&& kI2CSR_TRRDY_bm ≠ 0)
    (address : Nat) (s : Drv σ) :
    ∃ v s1 t, i2c_begin c fuel address false s = Res.ret () s1 t ∧
      ghost t = [Ev.set_register kSB_I2C_REGS_I2CTXDR (((address % 256) <<< 1) % 256),
        Ev.set_register kSB_I2C_REGS_I2CCMDR 0x94, Ev.set_register kSB_I2C_REGS_I2CCMDR 0,
        Ev.get_register kSB_I2C_REGS_I2CSR v] := by
  obtain ⟨s1, t1, h1, g1, -⟩ := sb_i2c_set_register_runs hack kSB_I2C_REGS_I2CTXDR
    ((address % 256) <<< 1 ||| (if false = true then 0b1 else 0b0)) s
  obtain ⟨s2, t2, h2, g2⟩ := sb_i2c_send_command_runs hack
    (0 ||| kI2CCMDR_CKSDIS_bm ||| kI2CCMDR_WR_bm ||| kI2CCMDR_STA_bm) s1
  obtain ⟨v, s3, t3, h3, g3⟩ := sb_i2c_wait_loop_runs hack hready (i2c_reset c fuel) 126 s2
  have h : i2c_begin c fuel address false s = Res.ret () s3 (t1 ++ (t2 ++ t3)) :=
    M.bind_of_ret h1 (M.bind_of_ret h2 h3)
  refine ⟨v, s3, _, h, ?_⟩
  rw [ghost_append, ghost_append, g1, g2, g3]
  simp
  rfl

theorem i2c_write_runs {σ : Type} {c : Csr σ} {fuel : Nat} (hack : BridgeAcks c fuel)
    (hready : ∀ hw, (c.sb_i2c_sbdato_read hw).1 % 256 &&& kI2CSR_TRRDY_bm ≠ 0)
    (data : Nat) (s : Drv σ) :
    ∃ v s1 t, i2c_write c fuel data s = Res.ret () s1 t ∧
      ghost t = [Ev.set_register kSB_I2C_REGS_I2CTXDR (data % 256),
        Ev.set_register kSB_I2C_REGS_I2CCMDR 0x14, Ev.set_register kSB_I2C_REGS_I2CCMDR 0,
        Ev.get_register kSB_I2C_REGS_I2CSR v] := by
  obtain ⟨s1, t1, h1, g1, -⟩ := sb_i2c_set_register_runs hack kSB_I2C_REGS_I2CTXDR data s
  obtain ⟨s2, t2, h2, g2⟩ := sb_i2c_send_command_runs hack
    (0 ||| kI2CCMDR_CKSDIS_bm ||| kI2CCMDR_WR_bm) s1
  obtain ⟨v, s3, t3, h3, g3⟩ := sb_i2c_wait_loop_runs hack hready (i2c_reset c fuel) 126 s2
  have h : i2c_write c fuel data s = Res.ret () s3 (t1 ++ (t2 ++ t3)) :=
    M.bind_of_ret h1 (M.bind_of_ret h2 h3)
  refine ⟨v, s3, _, h, ?_⟩
  rw [ghost_append, ghost_append, g1, g2, g3]
  rfl

/-- C9.  On hardware that acknowledges every Bridge access and reports
transmit-ready on every status read, the calls `i2c_init(); i2c_begin(0x50,
false); i2c_write(0xAA); i2c_end()` all return, one after the other.  The
register writes of `i2c_init` are the stop command, the control byte and the
two prescale bytes; the register writes after it are exactly transmit-data
`0xA0`, command `0x94`, command `0x00`, transmit-data `0xAA`, command `0x14`,
command `0x00` and the stop command `0x44`: two transmit-data writes in the
whole trace, each followed by its command and the clear, one stop command
after `i2c_init`, written last; and `i2c_reset` is never called. -/
theorem write_transaction_trace {σ : Type} (c : Csr σ) (fuel : Nat) (hack : BridgeAcks c fuel)
    (hready : ∀ hw, (c.sb_i2c_sbdato_read hw).1 % 256 &&& kI2CSR_TRRDY_bm ≠ 0) (s : Drv σ) :
    ∃ s1 s2 s3 s4 t1 t2 t3 t4,
      i2c_init c fuel s = Res.ret () s1 t1 ∧
      i2c_begin c fuel 0x50 false s1 = Res.ret () s2 t2 ∧
      i2c_write c fuel 0xAA s2 = Res.ret () s3 t3 ∧
      i2c_end c fuel s3 = Res.ret () s4 t4 ∧
      regWrites t1 =
        [(kSB_I2C_REGS_I2CCMDR, 0x44), (kSB_I2C_REGS_I2CCR1, 0x80),
          (kSB_I2C_REGS_I2CBRLSB, prescaler c &&& 0xFF),
          (kSB_I2C_REGS_I2CBRMSB, prescaler c >>> 8)] ∧
      regWrites (t2 ++ t3 ++ t4) =
        [(kSB_I2C_REGS_I2CTXDR, 0xA0), (kSB_I2C_REGS_I2CCMDR, 0x94), (kSB_I2C_REGS_I2CCMDR, 0x00),
          (kSB_I2C_REGS_I2CTXDR, 0xAA), (kSB_I2C_REGS_I2CCMDR, 0x14), (kSB_I2C_REGS_I2CCMDR, 0x00),
          (kSB_I2C_REGS_I2CCMDR, 0x44)] ∧
      ((regWrites (t1 ++ t2 ++ t3 ++ t4)).filter fun w => w.1 == kSB_I2C_REGS_I2CTXDR) =
        [(kSB_I2C_REGS_I2CTXDR, 0xA0), (kSB_I2C_REGS_I2CTXDR, 0xAA)] ∧
      (regWrites (t2 ++ t3 ++ t4)).count (kSB_I2C_REGS_I2CCMDR, 0x44) = 1 ∧
      resetCalls (t1 ++ t2 ++ t3 ++ t4) = 0 ∧
      statusReads (t1 ++ t2 ++ t3 ++ t4) = 2 := by
  obtain ⟨s1, t1, h1, g1⟩ := i2c_init_runs hack s
  obtain ⟨v2, s2, t2, h2, g2⟩ := i2c_begin_write_runs hack hready 0x50 s1
  obtain ⟨v3, s3, t3, h3, g3⟩ := i2c_write_runs hack hready 0xAA s2
  obtain ⟨s4, t4, h4, g4, -⟩ := i2c_end_runs hack s3
  refine ⟨s1, s2, s3, s4, t1, t2, t3, t4, h1, h2, h3, h4, ?_, ?_, ?_, ?_, ?_, ?_⟩
  · rw [← regWrites_ghost, g1]
    simp [Ev.write?]
  · rw [← regWrites_ghost, ghost_append, ghost_append, g2, g3, g4]
    simp [Ev.write?]
  · rw [← regWrites_ghost, ghost_append, ghost_append, ghost_append, g1, g2, g3, g4]
    simp [Ev.write?, kSB_I2C_REGS_I2CCMDR, kSB_I2C_REGS_I2CCR1, kSB_I2C_REGS_I2CBRLSB,
      kSB_I2C_REGS_I2CBRMSB, kSB_I2C_REGS_I2CTXDR]
  · rw [← regWrites_ghost, ghost_append, ghost_append, g2, g3, g4]
    simp [Ev.write?, kSB_I2C_REGS_I2CCMDR, kSB_I2C_REGS_I2CTXDR]
  · rw [← resetCalls_ghost, ghost_append, ghost_append, ghost_append, g1, g2, g3, g4]
    simp [Ev.isReset]
  · rw [← statusReads_ghost, ghost_append, ghost_append, ghost_append, g1, g2, g3, g4]
    simp [Ev.isStatusRead, kSB_I2C_REGS_I2CCMDR, kSB_I2C_REGS_I2CCR1, kSB_I2C_REGS_I2CBRLSB,
      kSB_I2C_REGS_I2CBRMSB, kSB_I2C_REGS_I2CTXDR, kSB_I2C_REGS_I2CSR]

/-- The simulated core with a 100 MHz clock whose status register always reads `TRRDY`. -/
theorem write_transaction_trace_witness :
    ∃ s1 s2 s3 s4 t1 t2 t3 t4,
      i2c_init (simCsr 100000000 fun _ => 4) 1 idle = Res.ret () s1 t1 ∧
      i2c_begin (simCsr 100000000 fun _ => 4) 1 0x50 false s1 = Res.ret () s2 t2 ∧
      i2c_write (simCsr 100000000 fun _ => 4) 1 0xAA s2 = Res.ret () s3 t3 ∧
      i2c_end (simCsr 100000000 fun _ => 4) 1 s3 = Res.ret () s4 t4 ∧
      regWrites (t2 ++ t3 ++ t4) =
        [(kSB_I2C_REGS_I2CTXDR, 0xA0), (kSB_I2C_REGS_I2CCMDR, 0x94), (kSB_I2C_REGS_I2CCMDR, 0x00),
          (kSB_I2C_REGS_I2CTXDR, 0xAA), (kSB_I2C_REGS_I2CCMDR, 0x14), (kSB_I2C_REGS_I2CCMDR, 0x00),
          (kSB_I2C_REGS_I2CCMDR, 0x44)] ∧
      resetCalls (t1 ++ t2 ++ t3 ++ t4) = 0 := by
  obtain ⟨s1, s2, s3, s4, t1, t2, t3, t4, h1, h2, h3, h4, -, h6, -, -, h9, -⟩ :=
    write_transaction_trace (simCsr 100000000 fun _ => 4) 1 (simCsr_acks _ _)
      (fun hw => by simp [simCsr, kI2CSR_TRRDY_bm]) idle
  exact ⟨s1, s2, s3, s4, t1, t2, t3, t4, h1, h2, h3, h4, h6, h9⟩

/-- C10.  With every Bridge access acknowledged, from every starting state
(any last-written register values `regs`, any direction and strobe signals,
any hardware state) `i2c_end` returns, and a second `i2c_end` returns too and
leaves the driver-visible state as the first did: the command register holds
`STO|CKSDIS = 0x44`, every other register holds what it held before, strobe
is de-asserted and direction is read. -/
theorem i2c_end_idempotent {σ : Type} (c : Csr σ) (fuel : Nat) (hack : BridgeAcks c fuel)
    (s : Drv σ) (regs : Nat → Nat) :
    ∃ s1 t1 s2 t2,
      i2c_end c fuel s = Res.ret () s1 t1 ∧
      i2c_end c fuel s1 = Res.ret () s2 t2 ∧
      viewAfter regs s2 (t1 ++ t2) = viewAfter regs s1 t1 ∧
      viewAfter regs s1 t1 =
        ⟨Function.update regs kSB_I2C_REGS_I2CCMDR (0 ||| kI2CCMDR_CKSDIS_bm ||| kI2CCMDR_STO_bm),
          false, false⟩ := by
  obtain ⟨s1, t1, h1, g1, a1, b1⟩ := i2c_end_runs hack s
  obtain ⟨s2, t2, h2, g2, a2, b2⟩ := i2c_end_runs hack s1
  have e1 : regWrites t1 = [(kSB_I2C_REGS_I2CCMDR, 0x44)] := by
    rw [← regWrites_ghost, g1]
    simp [Ev.write?]
  have e2 : regWrites t2 = [(kSB_I2C_REGS_I2CCMDR, 0x44)] := by
    rw [← regWrites_ghost, g2]
    simp [Ev.write?]
  refine ⟨s1, t1, s2, t2, h1, h2, ?_, ?_⟩
  · simp [viewAfter, e1, e2, a1, a2, b1, b2]
  · simp only [viewAfter, e1, a1, b1, applyWrites_cons, applyWrites_nil]
    rfl

/-- The simulated core, from a state with strobe and direction asserted and
every register last written with `0xFF`. -/
theorem i2c_end_idempotent_witness :
    ∃ s1 t1 s2 t2,
      i2c_end (simCsr 100000000 fun _ => 4) 1 ⟨0, true, true⟩ = Res.ret () s1 t1 ∧
      i2c_end (simCsr 100000000 fun _ => 4) 1 s1 = Res.ret () s2 t2 ∧
      viewAfter (fun _ => 0xFF) s2 (t1 ++ t2) = viewAfter (fun _ => 0xFF) s1 t1 ∧
      viewAfter (fun _ => 0xFF) s1 t1 =
        ⟨Function.update (fun _ => 0xFF) kSB_I2C_REGS_I2CCMDR
          (0 ||| kI2CCMDR_CKSDIS_bm ||| kI2CCMDR_STO_bm), false, false⟩ :=
  i2c_end_idempotent (simCsr 100000000 fun _ => 4) 1 (simCsr_acks _ _) ⟨0, true, true⟩
    (fun _ => 0xFF)

/-! ## The handshake of one Bridge access -/

/-- The acknowledge loop only polls the status signal. -/
theorem sb_ack_wait_polls {σ : Type} (c : Csr σ) (fuel : Nat) (s : Drv σ) :
    ∀ e ∈ (sb_ack_wait c fuel s).trace, e.isAckPoll = true := by
  induction fuel generalizing s with
  | zero => simp [sb_ack_wait, outOfFuel]
  | succ n ih =>
    simp only [sb_ack_wait, bind_def, M.bind_trace]
    simp only [sb_i2c_get_sb_ack, Res.trace_ret]
    intro e he
    rw [List.mem_append] at he
    rcases he with he | he
    · simp only [List.mem_singleton] at he
      subst he
      rfl
    · split_ifs at he
      · simp [M.pure] at he
      · exact ih _ e he

theorem sb_ack_wait_ret_polls {σ : Type} {c : Csr σ} {fuel : Nat} {s s1 : Drv σ} {t : List Ev}
    (h : sb_ack_wait c fuel s = Res.ret () s1 t) : ∀ e ∈ t, e.isAckPoll = true := by
  have hp := sb_ack_wait_polls c fuel s
  rw [h] at hp
  exact hp

/-- The complete trace of a register write that returns. -/
theorem sb_i2c_set_register_shape {σ : Type} {c : Csr σ} {fuel address data : Nat}
    {s s1 : Drv σ} {t : List Ev}
    (h : sb_i2c_set_register c fuel address data s = Res.ret () s1 t) :
    ∃ polls, (∀ e ∈ polls, e.isAckPoll = true) ∧
      t = [Ev.set_register address (data % 256), Ev.sbadri_write address,
            Ev.sbdati_write (data % 256),
            Ev.sbctrl_write (sbctrlWord c true s.sbstbi_status),
            Ev.sbctrl_write (sbctrlWord c true true)] ++ polls ++
          [Ev.sbctrl_write (sbctrlWord c true false),
            Ev.sbctrl_write (sbctrlWord c false false)] := by
  simp only [sb_i2c_set_register, bind_def] at h
  obtain ⟨_, s2, t1, _, h1, h, e1⟩ := M.bind_ret.mp h
  obtain ⟨_, s3, t2, _, h2, h, e2⟩ := M.bind_ret.mp h
  obtain ⟨_, s4, t3, _, h3, h, e3⟩ := M.bind_ret.mp h
  obtain ⟨_, s5, t4, _, h4, h, e4⟩ := M.bind_ret.mp h
  obtain ⟨_, s6, t5, _, h5, h, e5⟩ := M.bind_ret.mp h
  obtain ⟨_, s7, t6, _, h6, h, e6⟩ := M.bind_ret.mp h
  obtain ⟨_, s8, t7, t8, h7, h8, e7⟩ := M.bind_ret.mp h
  subst e7 e6 e5 e4 e3 e2 e1
  have hp := sb_ack_wait_ret_polls h6
  have hf := sb_ack_wait_ret c fuel _ _ _ h6
  simp only [emit, Res.ret.injEq] at h1
  simp only [sb_i2c_set_reg_addr, Res.ret.injEq] at h2
  simp only [sb_i2c_set_data, Res.ret.injEq] at h3
  simp only [sb_i2c_set_write_cmd, sb_i2c_sbctrl_sbrwi_write_eq, Res.ret.injEq] at h4
  simp only [sb_i2c_set_ready_cmd, sb_i2c_sbctrl_sbstbi_write_eq, Res.ret.injEq] at h5
  simp only [sb_i2c_set_not_ready_cmd, sb_i2c_sbctrl_sbstbi_write_eq, Res.ret.injEq] at h7
  simp only [sb_i2c_set_read_cmd, sb_i2c_sbctrl_sbrwi_write_eq, Res.ret.injEq] at h8
  obtain ⟨-, rfl, rfl⟩ := h1
  obtain ⟨-, rfl, rfl⟩ := h2
  obtain ⟨-, rfl, rfl⟩ := h3
  obtain ⟨-, rfl, rfl⟩ := h4
  obtain ⟨-, rfl, rfl⟩ := h5
  obtain ⟨-, rfl, rfl⟩ := h7
  obtain ⟨-, rfl, rfl⟩ := h8
  refine ⟨t6, hp, ?_⟩
  simp only [bne_self_eq_false] at hf
  simp [hf.1]

/-- The complete trace of a register read that returns. -/
theorem sb_i2c_get_register_shape {σ : Type} {c : Csr σ} {fuel address v : Nat}
    {s s1 : Drv σ} {t : List Ev}
    (h : sb_i2c_get_register c fuel address s = Res.ret v s1 t) :
    ∃ polls raw, (∀ e ∈ polls, e.isAckPoll = true) ∧ v = raw % 256 ∧
      t = [Ev.sbadri_write address,
            Ev.sbctrl_write (sbctrlWord c false s.sbstbi_status),
            Ev.sbctrl_write (sbctrlWord c false true)] ++ polls ++
          [Ev.sbdato_read raw, Ev.sbctrl_write (sbctrlWord c false false),
            Ev.get_register address v] := by
  simp only [sb_i2c_get_register, bind_def] at h
  obtain ⟨_, s2, t1, _, h1, h, e1⟩ := M.bind_ret.mp h
  obtain ⟨_, s3, t2, _, h2, h, e2⟩ := M.bind_ret.mp h
  obtain ⟨_, s4, t3, _, h3, h, e3⟩ := M.bind_ret.mp h
  obtain ⟨_, s5, t4, _, h4, h, e4⟩ := M.bind_ret.mp h
  obtain ⟨d, s6, t5, _, h5, h, e5⟩ := M.bind_ret.mp h
  obtain ⟨_, s7, t6, _, h6, h, e6⟩ := M.bind_ret.mp h
  obtain ⟨_, s8, t7, t8, h7, h8, e7⟩ := M.bind_ret.mp h
  subst e7 e6 e5 e4 e3 e2 e1
  have hp := sb_ack_wait_ret_polls h4
  have hf := sb_ack_wait_ret c fuel _ _ _ h4
  simp only [sb_i2c_set_reg_addr, Res.ret.injEq] at h1
  simp only [sb_i2c_set_read_cmd, sb_i2c_sbctrl_sbrwi_write_eq, Res.ret.injEq] at h2
  simp only [sb_i2c_set_ready_cmd, sb_i2c_sbctrl_sbstbi_write_eq, Res.ret.injEq] at h3
  simp only [sb_i2c_get_data, Res.ret.injEq] at h5
  simp only [sb_i2c_set_not_ready_cmd, sb_i2c_sbctrl_sbstbi_write_eq, Res.ret.injEq] at h6
  simp only [emit, Res.ret.injEq] at h7
  simp only [pure_def, M.pure, Res.ret.injEq] at h8
  obtain ⟨-, rfl, rfl⟩ := h1
  obtain ⟨-, rfl, rfl⟩ := h2
  obtain ⟨-, rfl, rfl⟩ := h3
  obtain ⟨rfl, rfl, rfl⟩ := h5
  obtain ⟨-, rfl, rfl⟩ := h6
  obtain ⟨-, rfl, rfl⟩ := h7
  obtain ⟨rfl, rfl, rfl⟩ := h8
  refine ⟨t4, _, hp, rfl, ?_⟩
  simp only [bne_self_eq_false] at hf
  simp [hf.1]

theorem ctrlWrites_append (t1 t2 : List Ev) :
    ctrlWrites (t1 ++ t2) = ctrlWrites t1 ++ ctrlWrites t2 := by
  simp [ctrlWrites]

/-- Polls of the acknowledge signal send no control word. -/
theorem ctrlWrites_polls {polls : List Ev} (hp : ∀ e ∈ polls, e.isAckPoll = true) :
    ctrlWrites polls = [] := by
  induction polls with
  | nil => rfl
  | cons e rest ih =>
    have he := hp e (List.mem_cons_self _ _)
    have hr := ih fun x hx => hp x (List.mem_cons_of_mem _ hx)
    cases e <;> simp_all [ctrlWrites, Ev.isAckPoll, Ev.ctrl?]

theorem sbctrlWord_idle {σ : Type} (c : Csr σ) : sbctrlWord c false false = 0 := by
  simp [sbctrlWord, boolToNat]

/-- C11.  For every starting value of the direction and strobe signals,
every register address and every data byte: a register write first writes
the address and the data signals and a register read first writes the
address signal, before any control word is sent (in every outcome); and
whenever `sb_i2c_set_register` or `sb_i2c_get_register` returns,
`sbstbi_status` and `sbrwi_status` are both `false` and the last control
word sent encodes exactly these two values.  The control words of a write
are, in order, (write, old strobe), (write, strobe), (write, no strobe),
(read, no strobe); those of a read are (read, old strobe), (read, strobe),
(read, no strobe). -/
theorem bridge_canonical_idle {σ : Type} (c : Csr σ) (fuel address data : Nat) (s : Drv σ) :
    (∃ rest, (sb_i2c_set_register c fuel address data s).trace =
        Ev.set_register address (data % 256) :: Ev.sbadri_write address ::
          Ev.sbdati_write (data % 256) :: rest) ∧
    (∀ s1 t, sb_i2c_set_register c fuel address data s = Res.ret () s1 t →
      s1.sbstbi_status = false ∧ s1.sbrwi_status = false ∧
      (ctrlWrites t).getLast? = some (sbctrlWord c s1.sbrwi_status s1.sbstbi_status) ∧
      ctrlWrites t = [sbctrlWord c true s.sbstbi_status, sbctrlWord c true true,
        sbctrlWord c true false, sbctrlWord c false false]) ∧
    (∃ rest, (sb_i2c_get_register c fuel address s).trace = Ev.sbadri_write address :: rest) ∧
    (∀ v s1 t, sb_i2c_get_register c fuel address s = Res.ret v s1 t →
      s1.sbstbi_status = false ∧ s1.sbrwi_status = false ∧
      (ctrlWrites t).getLast? = some (sbctrlWord c s1.sbrwi_status s1.sbstbi_status) ∧
      ctrlWrites t = [sbctrlWord c false s.sbstbi_status, sbctrlWord c false true,
        sbctrlWord c false false]) := by
  refine ⟨?_, ?_, ?_, ?_⟩
  · simp only [sb_i2c_set_register, bind_def, M.bind_trace, emit, sb_i2c_set_reg_addr,
      sb_i2c_set_data, Res.trace_ret, List.singleton_append, List.cons.injEq, true_and]
    exact ⟨_, rfl⟩
  · intro s1 t h
    obtain ⟨hr, hs⟩ := sb_i2c_set_register_ret h
    obtain ⟨polls, hp, rfl⟩ := sb_i2c_set_register_shape h
    have hc : ctrlWrites
        ([Ev.set_register address (data % 256), Ev.sbadri_write address,
            Ev.sbdati_write (data % 256),
            Ev.sbctrl_write (sbctrlWord c true s.sbstbi_status),
            Ev.sbctrl_write (sbctrlWord c true true)] ++ polls ++
          [Ev.sbctrl_write (sbctrlWord c true false),
            Ev.sbctrl_write (sbctrlWord c false false)]) =
        [sbctrlWord c true s.sbstbi_status, sbctrlWord c true true,
          sbctrlWord c true false, sbctrlWord c false false] := by
      rw [ctrlWrites_append, ctrlWrites_append, ctrlWrites_polls hp]
      simp [ctrlWrites, Ev.ctrl?]
    refine ⟨hs, hr, ?_, hc⟩
    rw [hc, hr, hs]
    rfl
  · simp only [sb_i2c_get_register, bind_def, M.bind_trace, sb_i2c_set_reg_addr,
      Res.trace_ret, List.singleton_append, List.cons.injEq, true_and]
    exact ⟨_, rfl⟩
  · intro v s1 t h
    obtain ⟨-, hr, hs, -⟩ := sb_i2c_get_register_ret h
    obtain ⟨polls, raw, hp, -, rfl⟩ := sb_i2c_get_register_shape h
    have hc : ctrlWrites
        ([Ev.sbadri_write address,
            Ev.sbctrl_write (sbctrlWord c false s.sbstbi_status),
            Ev.sbctrl_write (sbctrlWord c false true)] ++ polls ++
          [Ev.sbdato_read raw, Ev.sbctrl_write (sbctrlWord c false false),
            Ev.get_register address v]) =
        [sbctrlWord c false s.sbstbi_status, sbctrlWord c false true,
          sbctrlWord c false false] := by
      rw [ctrlWrites_append, ctrlWrites_append, ctrlWrites_polls hp]
      simp [ctrlWrites, Ev.ctrl?]
    refine ⟨hs, hr, ?_, hc⟩
    rw [hc, hr, hs]
    rfl

/-- The simulated core, entered with strobe and direction both asserted:
the write and the read return with both signals de-asserted and the control
word 0 sent last. -/
theorem bridge_canonical_idle_witness :
    (∃ s1 t, sb_i2c_set_register (simCsr 100000000 fun _ => 4) 1 0xd 0xAA ⟨0, true, true⟩
        = Res.ret () s1 t ∧
      s1.sbstbi_status = false ∧ s1.sbrwi_status = false ∧ ctrlWrites t = [3, 3, 1, 0]) ∧
    (∃ v s1 t, sb_i2c_get_register (simCsr 100000000 fun _ => 4) 1 0xc ⟨0, true, true⟩
        = Res.ret v s1 t ∧
      s1.sbstbi_status = false ∧ s1.sbrwi_status = false ∧ ctrlWrites t = [2, 2, 0]) := by
  have h := bridge_canonical_idle (simCsr 100000000 fun _ => 4) 1 0xd 0xAA ⟨0, true, true⟩
  have g := bridge_canonical_idle (simCsr 100000000 fun _ => 4) 1 0xc 0xAA ⟨0, true, true⟩
  have hr : (sb_i2c_set_register (simCsr 100000000 fun _ => 4) 1 0xd 0xAA
      ⟨0, true, true⟩).returns = true := by decide!
  have gr : (sb_i2c_get_register (simCsr 100000000 fun _ => 4) 1 0xc
      ⟨0, true, true⟩).returns = true := by decide!
  obtain ⟨_, s1, t, e⟩ := (Res.returns_iff _).mp hr
  obtain ⟨v, s2, t2, e2⟩ := (Res.returns_iff _).mp gr
  obtain ⟨a1, a2, -, a4⟩ := h.2.1 s1 t e
  obtain ⟨b1, b2, -, b4⟩ := g.2.2.2 v s2 t2 e2
  exact ⟨⟨s1, t, e, a1, a2, a4⟩, ⟨v, s2, t2, e2, b1, b2, b4⟩⟩

/-! ## The writes of `i2c_begin` -/

/-- A wait helper that returns without a call of `i2c_reset` has observed
its flag: it performed no register write, between 1 and `n` status reads,
and one of them showed the flag. -/
theorem sb_i2c_wait_loop_ret_observed {σ : Type} {c : Csr σ} {fuel mask : Nat}
    {reset : M σ Unit} (hreset : ∀ s, 1 ≤ resetCalls (reset s).trace)
    {n : Nat} {s s2 : Drv σ} {t : List Ev}
    (h : sb_i2c_wait_loop c fuel mask reset n s = Res.ret () s2 t) (hr : resetCalls t = 0) :
    regWrites t = [] ∧ 1 ≤ statusReads t ∧ statusReads t ≤ n ∧
      ∃ v, Ev.get_register kSB_I2C_REGS_I2CSR v ∈ t ∧ v &&& mask ≠ 0 := by
  induction n generalizing s t with
  | zero =>
    have h0 : reset s = Res.ret () s2 t := by simpa [sb_i2c_wait_loop] using h
    have h1 := hreset s
    rw [h0] at h1
    simp only [Res.trace_ret] at h1
    omega
  | succ n ih =>
    simp only [sb_i2c_wait_loop, bind_def] at h
    obtain ⟨sr, s1, tg, t2, hg, hk, e1⟩ := M.bind_ret.mp h
    subst e1
    obtain ⟨hq1, hq2, -⟩ := sb_i2c_get_register_quiet c fuel kSB_I2C_REGS_I2CSR s
    rw [hg] at hq1 hq2
    simp only [Res.trace_ret] at hq1 hq2
    have hq4 : statusReads tg = 1 := by
      rw [← statusReads_ghost, (sb_i2c_get_register_ret hg).1]
      simp [Ev.isStatusRead]
    have hmem : Ev.get_register kSB_I2C_REGS_I2CSR sr ∈ tg := by
      obtain ⟨polls, raw, -, -, e⟩ := sb_i2c_get_register_shape hg
      rw [e]
      simp
    rw [resetCalls_append] at hr
    split_ifs at hk with hb
    · simp only [pure_def, M.pure, Res.ret.injEq] at hk
      obtain ⟨-, -, rfl⟩ := hk
      refine ⟨by simp [hq1], by simp [hq4], by simp [hq4], sr, by simpa using hmem, ?_⟩
      simpa using hb
    · obtain ⟨a1, a2, a3, v, a4, a5⟩ := ih hk (by omega)
      refine ⟨by simp [hq1, a1], ?_, ?_, v, List.mem_append_right _ a4, a5⟩
      · rw [statusReads_append]
        omega
      · rw [statusReads_append]
        omega

/-- The register writes of a register write, in every outcome. -/
theorem sb_i2c_set_register_writes {σ : Type} (c : Csr σ) (fuel address data : Nat) (s : Drv σ) :
    regWrites (sb_i2c_set_register c fuel address data s).trace = [(address, data % 256)] := by
  rw [← regWrites_ghost, sb_i2c_set_register_ghost]
  simp [Ev.write?]

theorem M.bind_diverge_left {σ α β : Type} {m : M σ α} (f : α → M σ β) {s : Drv σ}
    {t : List Ev} (h : m s = Res.diverge t) : M.bind m f s = Res.diverge t := by
  simp [M.bind, h]

theorem M.bind_diverge_right {σ α β : Type} {m : M σ α} {f : α → M σ β} {s s1 : Drv σ} {a : α}
    {t1 t2 : List Ev} (h1 : m s = Res.ret a s1 t1) (h2 : f a s1 = Res.diverge t2) :
    M.bind m f s = Res.diverge (t1 ++ t2) := by
  simp [M.bind, h1, h2]

theorem sb_i2c_set_register_writes_ret {σ : Type} {c : Csr σ} {fuel address data : Nat}
    {s s1 : Drv σ} {t : List Ev} (h : sb_i2c_set_register c fuel address data s = Res.ret () s1 t) :
    regWrites t = [(address, data % 256)] := by
  have w := sb_i2c_set_register_writes c fuel address data s
  rw [h] at w
  exact w

theorem sb_i2c_set_register_writes_diverge {σ : Type} {c : Csr σ} {fuel address data : Nat}
    {s : Drv σ} {t : List Ev} (h : sb_i2c_set_register c fuel address data s = Res.diverge t) :
    regWrites t = [(address, data % 256)] := by
  have w := sb_i2c_set_register_writes c fuel address data s
  rw [h] at w
  exact w

/-- In every outcome, a register write followed by a command pulse and a
continuation `k` writes the three registers in order, as far as it gets. -/
theorem three_writes_prefix {σ : Type} (c : Csr σ) (fuel a1 d1 d2 : Nat) (k : M σ Unit)
    (s : Drv σ) :
    regWrites ((M.bind (sb_i2c_set_register c fuel a1 d1) fun _ =>
        M.bind (sb_i2c_send_command c fuel d2) fun _ => k) s).trace = [(a1, d1 % 256)] ∨
    regWrites ((M.bind (sb_i2c_set_register c fuel a1 d1) fun _ =>
        M.bind (sb_i2c_send_command c fuel d2) fun _ => k) s).trace =
      [(a1, d1 % 256), (kSB_I2C_REGS_I2CCMDR, d2 % 256)] ∨
    ∃ more, regWrites ((M.bind (sb_i2c_set_register c fuel a1 d1) fun _ =>
        M.bind (sb_i2c_send_command c fuel d2) fun _ => k) s).trace =
      (a1, d1 % 256) :: (kSB_I2C_REGS_I2CCMDR, d2 % 256) :: (kSB_I2C_REGS_I2CCMDR, 0) :: more := by
  cases h1 : sb_i2c_set_register c fuel a1 d1 s with
  | diverge t1 =>
    left
    rw [M.bind_diverge_left _ h1]
    exact sb_i2c_set_register_writes_diverge h1
  | ret u1 s1 t1 =>
    have w1 := sb_i2c_set_register_writes_ret h1
    cases h2 : sb_i2c_set_register c fuel kSB_I2C_REGS_I2CCMDR d2 s1 with
    | diverge t2 =>
      right
      left
      have hs : sb_i2c_send_command c fuel d2 s1 = Res.diverge t2 := M.bind_diverge_left _ h2
      rw [M.bind_diverge_right h1 (M.bind_diverge_left _ hs)]
      simp [w1, sb_i2c_set_register_writes_diverge h2]
    | ret u2 s2 t2 =>
      have w2 := sb_i2c_set_register_writes_ret h2
      right
      right
      cases h3 : sb_i2c_set_register c fuel kSB_I2C_REGS_I2CCMDR 0x00 s2 with
      | diverge t3 =>
        have hs : sb_i2c_send_command c fuel d2 s1 = Res.diverge (t2 ++ t3) :=
          M.bind_diverge_right h2 h3
        rw [M.bind_diverge_right h1 (M.bind_diverge_left _ hs)]
        exact ⟨[], by simp [w1, w2, sb_i2c_set_register_writes_diverge h3]⟩
      | ret u3 s3 t3 =>
        have w3 := sb_i2c_set_register_writes_ret h3
        have hs : sb_i2c_send_command c fuel d2 s1 = Res.ret () s3 (t2 ++ t3) :=
          M.bind_of_ret h2 h3
        rw [M.bind_trace, h1]
        simp only [Res.trace_ret]
        rw [M.bind_trace, hs]
        simp only [Res.trace_ret, regWrites_append, w1, w2, w3]
        exact ⟨_, rfl⟩

/-- The byte `i2c_begin` sends for a 7-bit address: the address in the upper
seven bits, the direction in bit 0. -/
theorem i2c_begin_byte :
    ∀ (address : Fin 128) (is_read_cmd : Bool),
      ((address.val % 256) <<< 1 ||| (if is_read_cmd = true then 1 else 0)) % 256
          = 2 * address.val + boolToNat is_read_cmd ∧
        2 * address.val + boolToNat is_read_cmd < 256 ∧
        (2 * address.val + boolToNat is_read_cmd) >>> 1 = address.val ∧
        (2 * address.val + boolToNat is_read_cmd) &&& 1 = boolToNat is_read_cmd := by
  decide!

/-- C12.  For every 7-bit address `a` and direction flag `r`, the byte
`2 * a + (1 if r else 0)` is below 256, has `a` in its upper seven bits and
the direction in bit 0.  In every outcome the register writes of
`i2c_begin(a, r)` are, as far as the call gets, transmit-data := that byte,
command := `STA|WR|CKSDIS = 0x94`, command := `0x00`, in this order.  When
`i2c_begin(a, r)` returns these are its first three register writes; and if
`i2c_reset` was not called (the wait helper returned because a status read
showed its flag: slave-read for `r = true`, transmit-ready for `r = false`),
the only further register write is command := `RD|CKSDIS = 0x24` for
`r = true`, and there is none for `r = false`. -/
theorem i2c_begin_first_writes {σ : Type} (c : Csr σ) (fuel address : Nat) (is_read_cmd : Bool)
    (s : Drv σ) (ha : address < 128) :
    (2 * address + boolToNat is_read_cmd < 256 ∧
      (2 * address + boolToNat is_read_cmd) >>> 1 = address ∧
      (2 * address + boolToNat is_read_cmd) &&& 1 = boolToNat is_read_cmd) ∧
    (regWrites (i2c_begin c fuel address is_read_cmd s).trace =
        [(kSB_I2C_REGS_I2CTXDR, 2 * address + boolToNat is_read_cmd)] ∨
      regWrites (i2c_begin c fuel address is_read_cmd s).trace =
        [(kSB_I2C_REGS_I2CTXDR, 2 * address + boolToNat is_read_cmd),
          (kSB_I2C_REGS_I2CCMDR, 0x94)] ∨
      ∃ more, regWrites (i2c_begin c fuel address is_read_cmd s).trace =
        (kSB_I2C_REGS_I2CTXDR, 2 * address + boolToNat is_read_cmd) ::
          (kSB_I2C_REGS_I2CCMDR, 0x94) :: (kSB_I2C_REGS_I2CCMDR, 0x00) :: more) ∧
    (∀ s2 t, i2c_begin c fuel address is_read_cmd s = Res.ret () s2 t →
      ∃ further, regWrites t =
        (kSB_I2C_REGS_I2CTXDR, 2 * address + boolToNat is_read_cmd) ::
          (kSB_I2C_REGS_I2CCMDR, 0x94) :: (kSB_I2C_REGS_I2CCMDR, 0x00) :: further ∧
        (resetCalls t = 0 →
          further = (if is_read_cmd then [(kSB_I2C_REGS_I2CCMDR, 0x24)] else []) ∧
          ∃ v, Ev.get_register kSB_I2C_REGS_I2CSR v ∈ t ∧
            v &&& (if is_read_cmd then kI2CSR_SRW_bm else kI2CSR_TRRDY_bm) ≠ 0)) := by
  obtain ⟨hb, hlt, hhi, hlo⟩ := i2c_begin_byte ⟨address, ha⟩ is_read_cmd
  simp only [] at hb hlt hhi hlo
  refine ⟨⟨hlt, hhi, hlo⟩, ?_, ?_⟩
  · have h3 := three_writes_prefix c fuel kSB_I2C_REGS_I2CTXDR
      ((address % 256) <<< 1 ||| (if is_read_cmd = true then 0b1 else 0b0))
      (0 ||| kI2CCMDR_CKSDIS_bm ||| kI2CCMDR_WR_bm ||| kI2CCMDR_STA_bm)
      (if is_read_cmd = true then
        M.bind (sb_i2c_wait_for_srw_with c fuel (i2c_reset c fuel)) fun _ =>
          sb_i2c_set_register c fuel kSB_I2C_REGS_I2CCMDR
            (0 ||| kI2CCMDR_CKSDIS_bm ||| kI2CCMDR_RD_bm)
      else sb_i2c_wait_for_trrdy_with c fuel (i2c_reset c fuel)) s
    rw [hb] at h3
    exact h3
  · intro s2 t h
    cases is_read_cmd with
    | false =>
      obtain ⟨s1, t0, tw, rfl, hg, hw⟩ := i2c_begin_with_write_ret h
      have e0 := congrArg regWrites hg
      rw [regWrites_ghost] at e0
      simp only [Bool.false_eq_true, if_false, Nat.or_zero] at hb
      refine ⟨regWrites tw, ?_, ?_⟩
      · rw [regWrites_append, e0, hb]
        simp [Ev.write?, boolToNat]
      · intro hr
        rw [resetCalls_append] at hr
        obtain ⟨a1, -, -, v, a4, a5⟩ :=
          sb_i2c_wait_loop_ret_observed (i2c_reset_resetCalls c fuel) hw (by omega)
        exact ⟨by simp [a1], v, List.mem_append_right _ a4, by simpa using a5⟩
    | true =>
      obtain ⟨s1, s3, t0, tw, t2, rfl, hg, hw, hg2⟩ := i2c_begin_with_read_ret h
      have e0 := congrArg regWrites hg
      have e2 := congrArg regWrites hg2
      rw [regWrites_ghost] at e0 e2
      simp only [if_true] at hb
      refine ⟨regWrites tw ++ [(kSB_I2C_REGS_I2CCMDR, 0x24)], ?_, ?_⟩
      · rw [regWrites_append, regWrites_append, e0, e2, hb]
        simp [Ev.write?, boolToNat]
      · intro hr
        rw [resetCalls_append, resetCalls_append] at hr
        obtain ⟨a1, -, -, v, a4, a5⟩ :=
          sb_i2c_wait_loop_ret_observed (i2c_reset_resetCalls c fuel) hw (by omega)
        exact ⟨by simp [a1], v,
          List.mem_append_left _ (List.mem_append_right _ a4), by simpa using a5⟩

/-- A read transaction to address `0x50` on a core whose status register
always shows the slave-read flag: the writes are `0xA1`, `0x94`, `0x00`, `0x24`. -/
theorem i2c_begin_first_writes_witness :
    ∃ s2 t, i2c_begin (simCsr 100000000 fun _ => 0x14) 1 0x50 true idle = Res.ret () s2 t ∧
      regWrites t = [(kSB_I2C_REGS_I2CTXDR, 0xA1), (kSB_I2C_REGS_I2CCMDR, 0x94),
        (kSB_I2C_REGS_I2CCMDR, 0x00), (kSB_I2C_REGS_I2CCMDR, 0x24)] := by
  have hr : (i2c_begin (simCsr 100000000 fun _ => 0x14) 1 0x50 true idle).returns = true ∧
      resetCalls (i2c_begin (simCsr 100000000 fun _ => 0x14) 1 0x50 true idle).trace = 0 := by
    decide!
  obtain ⟨_, s2, t, h⟩ := (Res.returns_iff _).mp hr.1
  have h0 := hr.2
  rw [h] at h0
  obtain ⟨further, e, hf⟩ :=
    (i2c_begin_first_writes (simCsr 100000000 fun _ => 0x14) 1 0x50 true idle
      (by decide)).2.2 s2 t h
  obtain ⟨rfl, -⟩ := hf h0
  exact ⟨s2, t, h, e⟩

/-! ## The poll count of the wait helpers -/

/-- When the flag shows for the first time on the `k`-th status read and the
loop allows `n ≥ k` reads, the wait loop returns after exactly `k` status
reads, with no register write and no call of `i2c_reset`. -/
theorem sb_i2c_wait_loop_first_flag {σ : Type} (c : Csr σ) (fuel mask : Nat) (reset : M σ Unit)
    (k : Nat) : ∀ (n : Nat) (s : Drv σ), flagFirstOnPoll c fuel mask k s = true → k ≤ n →
      ∃ s2 t, sb_i2c_wait_loop c fuel mask reset n s = Res.ret () s2 t ∧
        statusReads t = k ∧ regWrites t = [] ∧ resetCalls t = 0 := by
  induction k with
  | zero =>
    intro n s h
    simp [flagFirstOnPoll] at h
  | succ k ih =>
    intro n s h hn
    obtain ⟨m, rfl⟩ : ∃ m, n = m + 1 := ⟨n - 1, by omega⟩
    simp only [flagFirstOnPoll] at h
    cases hg : sb_i2c_get_register c fuel kSB_I2C_REGS_I2CSR s with
    | diverge tg => simp [hg] at h
    | ret v s1 tg =>
      simp only [hg] at h
      obtain ⟨hq1, hq2, -⟩ := sb_i2c_get_register_quiet c fuel kSB_I2C_REGS_I2CSR s
      rw [hg] at hq1 hq2
      simp only [Res.trace_ret] at hq1 hq2
      have hq4 : statusReads tg = 1 := by
        rw [← statusReads_ghost, (sb_i2c_get_register_ret hg).1]
        simp [Ev.isStatusRead]
      split_ifs at h with hb
      · have hk : k = 0 := by simpa using h
        subst hk
        exact ⟨s1, tg, sb_i2c_wait_loop_ready reset m hg (by simpa using hb), hq4, hq1, hq2⟩
      · obtain ⟨s2, t2, h2, a1, a2, a3⟩ := ih m s1 h (by omega)
        refine ⟨s2, tg ++ t2, ?_, ?_, by simp [hq1, a2], by simp [hq2, a3]⟩
        · simp only [sb_i2c_wait_loop, bind_def]
          refine M.bind_of_ret hg ?_
          simpa [hb] using h2
        · rw [statusReads_append]
          omega

/-- C13.  For every `k` with `1 ≤ k ≤ 127`: on hardware whose status reads
show the polled flag (bit 2 for `sb_i2c_wait_for_trrdy`, bit 4 for
`sb_i2c_wait_for_srw`) for the first time on the `k`-th read, the wait
helper returns after exactly `k` status reads, with no register write and no
call of `i2c_reset`.  And on every hardware, in every outcome, the helper's
own loop performs at most 127 status reads (and no register write) before
the helper returns or calls `i2c_reset`. -/
theorem wait_helpers_poll_count {σ : Type} (c : Csr σ) (fuel k : Nat) (s : Drv σ)
    (hk1 : 1 ≤ k) (hk : k ≤ 127) :
    (flagFirstOnPoll c fuel kI2CSR_TRRDY_bm k s = true →
      ∃ s2 t, sb_i2c_wait_for_trrdy c fuel s = Res.ret () s2 t ∧
        statusReads t = k ∧ regWrites t = [] ∧ resetCalls t = 0) ∧
    (flagFirstOnPoll c fuel kI2CSR_SRW_bm k s = true →
      ∃ s2 t, sb_i2c_wait_for_srw c fuel s = Res.ret () s2 t ∧
        statusReads t = k ∧ regWrites t = [] ∧ resetCalls t = 0) ∧
    (∃ t0, statusReads t0 ≤ 127 ∧ regWrites t0 = [] ∧ resetCalls t0 = 0 ∧
      ((sb_i2c_wait_for_trrdy c fuel s).trace = t0 ∨
        ∃ s1, (sb_i2c_wait_for_trrdy c fuel s).trace = t0 ++ (i2c_reset c fuel s1).trace)) ∧
    (∃ t0, statusReads t0 ≤ 127 ∧ regWrites t0 = [] ∧ resetCalls t0 = 0 ∧
      ((sb_i2c_wait_for_srw c fuel s).trace = t0 ∨
        ∃ s1, (sb_i2c_wait_for_srw c fuel s).trace = t0 ++ (i2c_reset c fuel s1).trace)) := by
  have _ := hk1
  refine ⟨fun h => ?_, fun h => ?_, ?_, ?_⟩
  · exact sb_i2c_wait_loop_first_flag c fuel kI2CSR_TRRDY_bm (i2c_reset c fuel) k
      kSB_I2C_CONFIG_TRRDY_TIMEOUT s h hk
  · exact sb_i2c_wait_loop_first_flag c fuel kI2CSR_SRW_bm (i2c_reset c fuel) k
      kSB_I2C_CONFIG_SRW_TIMEOUT s h hk
  · obtain ⟨t0, h1, h2, h3, h4⟩ := sb_i2c_wait_loop_trace c fuel kI2CSR_TRRDY_bm
      (i2c_reset c fuel) kSB_I2C_CONFIG_TRRDY_TIMEOUT s
    exact ⟨t0, h3, h1, h2, h4⟩
  · obtain ⟨t0, h1, h2, h3, h4⟩ := sb_i2c_wait_loop_trace c fuel kI2CSR_SRW_bm
      (i2c_reset c fuel) kSB_I2C_CONFIG_SRW_TIMEOUT s
    exact ⟨t0, h3, h1, h2, h4⟩

/-- A core whose status register shows both flags from the fifth read on:
both helpers return after exactly five status reads. -/
theorem wait_helpers_poll_count_witness :
    (∃ s2 t, sb_i2c_wait_for_trrdy (simCsr 100000000 fun j => if j < 4 then 0 else 0x14) 1 idle
        = Res.ret () s2 t ∧ statusReads t = 5 ∧ regWrites t = [] ∧ resetCalls t = 0) ∧
    (∃ s2 t, sb_i2c_wait_for_srw (simCsr 100000000 fun j => if j < 4 then 0 else 0x14) 1 idle
        = Res.ret () s2 t ∧ statusReads t = 5 ∧ regWrites t = [] ∧ resetCalls t = 0) :=
  ⟨(wait_helpers_poll_count (simCsr 100000000 fun j => if j < 4 then 0 else 0x14) 1 5 idle
      (by decide) (by decide)).1 (by decide!),
   (wait_helpers_poll_count (simCsr 100000000 fun j => if j < 4 then 0 else 0x14) 1 5 idle
      (by decide) (by decide)).2.1 (by decide!)⟩

/-! ## The prescale bytes -/

/-- Every 16-bit value is the `prescaler` of some clock frequency. -/
theorem prescalerOf_surjective (p : Nat) (hp : p < 65536) :
    prescalerOf ((p + 1) * 1600000) = p := by
  unfold prescalerOf kSB_I2C_CONFIG_TARGET_I2C_FREQUENCY
  have h3 : (p + 1) * 1600000 / 400000 / 4 = p + 1 := by
    rw [Nat.div_div_eq_div_mul]
    exact Nat.mul_div_cancel _ (by norm_num)
  have h4 : ((((p + 1) * 1600000 : Nat) : Int) / ((400000 : Nat) : Int)) / 4
      = (((p + 1) * 1600000 / 400000 / 4 : Nat) : Int) := by
    push_cast
    rfl
  rw [h4, h3]
  omega

theorem low_byte_eq_mod (p : Nat) : p &&& 0xFF = p % 256 :=
  Nat.and_pow_two_sub_one_eq_mod p 8

theorem high_byte_eq_div (p : Nat) : p >>> 8 = p / 256 :=
  Nat.shiftRight_eq_div_pow p 8

/-- C14.  For every 16-bit prescaler value `p` (each is the `prescaler` of
some clock frequency), a returning `i2c_init` writes `low = p & 0xFF` to the
prescale-low register (address 10) and `high = (p >> 8)` truncated to eight
bits to the prescale-high register (address 11); the two bytes recombine to
`p`, `high * 256 + low = p`, and `high` fits the two-bit prescale-MSB field
(`high ≤ 3`) exactly when `p < 1024`. -/
theorem prescale_bytes_recombine (p : Nat) (hp : p < 65536) :
    prescalerOf ((p + 1) * 1600000) = p ∧
    ∀ {σ : Type} (c : Csr σ) (fuel : Nat) (s s1 : Drv σ) (t : List Ev),
      prescaler c = p → i2c_init c fuel s = Res.ret () s1 t →
      ∃ low high,
        regWrites t = [(kSB_I2C_REGS_I2CCMDR, 0x44), (kSB_I2C_REGS_I2CCR1, 0x80),
          (kSB_I2C_REGS_I2CBRLSB, low), (kSB_I2C_REGS_I2CBRMSB, high)] ∧
        low = p &&& 0xFF ∧ high = (p >>> 8) % 256 ∧ low < 256 ∧ high < 256 ∧
        high * 256 + low = p ∧ (high ≤ kI2CBRMSB_bm ↔ p < 1024) := by
  refine ⟨prescalerOf_surjective p hp, ?_⟩
  intro σ c fuel s s1 t hc h
  have e := congrArg regWrites (i2c_init_ret h)
  rw [regWrites_ghost, hc] at e
  have hl := low_byte_eq_mod p
  have hh := high_byte_eq_div p
  refine ⟨p &&& 0xFF, (p >>> 8) % 256, ?_, rfl, rfl, ?_, ?_, ?_, ?_⟩
  · rw [e, Nat.mod_eq_of_lt (by rw [hh]; omega)]
    simp [Ev.write?]
  · rw [hl]
    omega
  · omega
  · rw [hl, hh]
    omega
  · rw [hh]
    unfold kI2CBRMSB_bm
    omega

/-- The 100 MHz configuration, `p = 61`: the bytes written are 61 and 0. -/
theorem prescale_bytes_recombine_witness :
    ∃ s1 t low high, i2c_init (simCsr 100000000 fun _ => 4) 1 idle = Res.ret () s1 t ∧
      regWrites t = [(kSB_I2C_REGS_I2CCMDR, 0x44), (kSB_I2C_REGS_I2CCR1, 0x80),
        (kSB_I2C_REGS_I2CBRLSB, low), (kSB_I2C_REGS_I2CBRMSB, high)] ∧
      low = 61 ∧ high = 0 ∧ high * 256 + low = 61 := by
  have hr : (i2c_init (simCsr 100000000 fun _ => 4) 1 idle).returns = true := by decide!
  obtain ⟨_, s1, t, h⟩ := (Res.returns_iff _).mp hr
  obtain ⟨low, high, e, hl, hh, -, -, hs, -⟩ :=
    (prescale_bytes_recombine 61 (by decide)).2 (simCsr 100000000 fun _ => 4) 1 idle s1 t
      (by decide) h
  exact ⟨s1, t, low, high, h, e, hl, hh, hs⟩

end I2CDriver
